import Mathlib

/-!
Verification of the OnboardingFormFiller extraction & consensus merge engine.

Shallow embedding of the pure core of:
  * src/schema/rfi_fields.py       (data model: Confidence, RFIField)
  * src/extraction/extractor.py    (chunking, calibration, merge, conflicts)
  * src/backend/services/extraction_service.py (_do_extraction steps 6-8)

LLM calls are modelled as parameters holding the (already JSON-decoded)
response; a parse failure or call failure is the None case.  Python dict
lookups are modelled over association lists with last-binding-wins lookup
(matching repeated-assignment dict construction); Python set iteration is
modelled as first-occurrence order.
-/

namespace OFF

/-- Confidence enum from src/schema/rfi_fields.py. -/
inductive Confidence where
  | high
  | medium
  | low
  | missing
deriving DecidableEq, Repr

/-- Field definition (src/schema/rfi_fields.py, class RFIField); only the
attributes read by the merge engine are embedded (category and
primary_sources are not consulted by merge_answers). -/
structure RFIField where
  row : Nat
  key : String
  question : String
  extraction_hint : String
  hubspot_property : Option String
deriving DecidableEq, Repr

/-- Candidate / merged answer record (src/extraction/extractor.py, class
ExtractedAnswer).  answer is Optional in the source (None allowed). -/
structure ExtractedAnswer where
  field_key : String
  question : String
  answer : Option String
  confidence : Confidence
  source : String
  evidence : String
  row : Nat
deriving DecidableEq, Repr

instance : Inhabited ExtractedAnswer :=
  ⟨⟨"", "", none, Confidence.missing, "", "", 0⟩⟩

/-- Python truthiness of an optional string: None and the empty string are
falsy. -/
def optTruthy : Option String → Bool
  | none => false
  | some s => s ≠ ""

/-- Python str() applied to an optional-string value (str(None) = "None"). -/
def pyStr : Option String → String
  | none => "None"
  | some s => s

/-- Python dict lookup over an association list built by repeated
assignment: the LAST binding for a key wins. -/
def dictGet? {α : Type} (k : String) (l : List (String × α)) : Option α :=
  (l.reverse.find? (fun p => p.1 = k)).map (·.2)

/-- Deduplication keeping first occurrences (model of Python set iteration
order for source-label sets). -/
def dedupFirstAux {α : Type} [DecidableEq α] (seen : List α) : List α → List α
  | [] => []
  | a :: l =>
      if a ∈ seen then dedupFirstAux seen l
      else a :: dedupFirstAux (a :: seen) l

def dedupFirst {α : Type} [DecidableEq α] (l : List α) : List α :=
  dedupFirstAux [] l

/-! ## Python string primitives

The Lean core String.splitOn / String.trim / String.startsWith are
position-based loops that the kernel cannot evaluate, so the Python string
operations used by the source are modelled directly by structural
recursion over the character list. -/

/-- Python sep.join(l). -/
def pyJoin (sep : String) : List String → String
  | [] => ""
  | [u] => u
  | u :: rest => u ++ sep ++ pyJoin sep rest

/-- Python whitespace test for str.strip (the ASCII whitespace characters;
the source never strips non-ASCII whitespace in the scenarios claimed). -/
def pyWhitespace (c : Char) : Bool :=
  c = ' ' ∨ c = '\t' ∨ c = '\n' ∨ c = '\r' ∨ c = '\x0b' ∨ c = '\x0c'

/-- Python s.strip(). -/
def pyStrip (s : String) : String :=
  String.mk (((s.toList.dropWhile pyWhitespace).reverse.dropWhile pyWhitespace).reverse)

/-- Python s.startswith(pre). -/
def pyStartsWith (s pre : String) : Bool :=
  pre.toList.isPrefixOf s.toList

/-- If sep is a prefix of l, drop it and return the remainder. -/
def dropSep? (sep l : List Char) : Option (List Char) :=
  match sep, l with
  | [], rest => some rest
  | _ :: _, [] => none
  | c :: cs, d :: ds => if c = d then dropSep? cs ds else none

/-- Python s.split(sep) for non-empty sep: scan left to right, splitting at
each non-overlapping occurrence, keeping empty pieces.  The fuel argument
(instantiated with the text length) only forces structural termination;
each step consumes at least one character, so it is never exhausted. -/
def pySplitAux (sep : List Char) : Nat → List Char → List Char → List (List Char)
  | _, [], cur => [cur.reverse]
  | 0, l, cur => [cur.reverse ++ l]
  | fuel + 1, c :: cs, cur =>
      match dropSep? sep (c :: cs) with
      | some rest => cur.reverse :: pySplitAux sep fuel rest []
      | none => pySplitAux sep fuel cs (c :: cur)

/-- Python s.split(sep) (the source always passes a non-empty sep). -/
def pySplitOn (s sep : String) : List String :=
  if sep = "" then [s]
  else (pySplitAux sep.toList s.toList.length s.toList []).map String.mk

/-! ## Text chunker (src/extraction/extractor.py lines 400-473) -/

/-- Python "\n\n".join (the joiner used by both chunking loops). -/
def joinNN : List String → String :=
  pyJoin "\n\n"

/-- The greedy packing loop shared (textually duplicated) by _chunk_text
lines 413-428 and _chunk_transcript lines 445-472: accumulate units,
flushing the current group when adding the next unit would exceed
max_chars and the group is non-empty. -/
def packLoop (maxChars : Nat) (chunks current : List String) (currentLen : Nat) :
    List String → List String
  | [] => if current ≠ [] then chunks ++ [joinNN current] else chunks
  | u :: rest =>
      if currentLen + u.length > maxChars ∧ current ≠ [] then
        packLoop maxChars (chunks ++ [joinNN current]) [u] (u.length + 2) rest
      else
        packLoop maxChars chunks (current ++ [u]) (currentLen + u.length + 2) rest

def packUnits (maxChars : Nat) (units : List String) : List String :=
  packLoop maxChars [] [] 0 units

/-- Speaker-turn splitting from _chunk_transcript lines 433-443: a new turn
starts at each line whose stripped text starts with "**". -/
def turnsLoop (turns currentTurn : List String) : List String → List String
  | [] => if currentTurn ≠ [] then turns ++ [pyJoin "\n" currentTurn] else turns
  | line :: rest =>
      if pyStartsWith (pyStrip line) "**" ∧ currentTurn ≠ [] then
        turnsLoop (turns ++ [pyJoin "\n" currentTurn]) [line] rest
      else
        turnsLoop turns (currentTurn ++ [line]) rest

def turnsOf (text : String) : List String :=
  turnsLoop [] [] (pySplitOn text "\n")

/-- Grouping of turns two at a time (the while loop of _chunk_transcript
lines 450-460): each packing unit is a dialogue pair, except a trailing
odd turn which stands alone. -/
def pairTurns : List String → List String
  | [] => []
  | [t] => [t]
  | t :: u :: rest => (t ++ "\n\n" ++ u) :: pairTurns rest

/-- _chunk_transcript (lines 430-473). -/
def chunk_transcript (text : String) (maxChars : Nat) : List String :=
  packUnits maxChars (pairTurns (turnsOf text))

/-- Transcript-format heuristic from _chunk_text lines 406-407. -/
def isTranscript (text : String) : Bool :=
  ((pySplitOn text "\n").take 20).any (fun line => pyStartsWith (pyStrip line) "**")

/-- _chunk_text (lines 400-428). -/
def chunk_text (text : String) (maxChars : Nat) : List String :=
  if text.length ≤ maxChars then [text]
  else if isTranscript text then chunk_transcript text maxChars
  else packUnits maxChars (pySplitOn text "\n\n")

/-! ## Confidence calibration (src/extraction/extractor.py lines 306-398) -/

/-- The to_review filter of calibrate_confidence (lines 312-316); the same
predicate guards the calibration call in _do_extraction (lines 174-177). -/
def reviewable (a : ExtractedAnswer) : Bool :=
  (a.confidence = Confidence.high ∨ a.confidence = Confidence.medium) ∧
    a.evidence ≠ "" ∧ optTruthy a.answer

/-- downgrade_order dict at line 378: high 0, medium 1, low 2; missing has
no entry (so dict .get falls back to its default). -/
def downgradeOrder : Confidence → Option Nat
  | Confidence.high => some 0
  | Confidence.medium => some 1
  | Confidence.low => some 2
  | Confidence.missing => none

/-- The revision-application loop of calibrate_confidence (lines 384-394):
a revision is applied when downgrade_order.get(revised, 0) is strictly
greater than downgrade_order.get(current, 0). -/
def calibrateApply (revisionMap : List (String × Confidence))
    (answers : List ExtractedAnswer) : List ExtractedAnswer :=
  answers.map (fun a =>
    match dictGet? a.field_key revisionMap with
    | none => a
    | some revised =>
        if (downgradeOrder revised).getD 0 > (downgradeOrder a.confidence).getD 0 then
          { a with confidence := revised }
        else a)

/-- calibrate_confidence (lines 306-398).  The LLM reply is modelled as the
already-decoded revision list; none models a JSON parse failure (lines
371-375, return unchanged). -/
def calibrate_confidence (answers : List ExtractedAnswer)
    (response : Option (List (String × Confidence))) : List ExtractedAnswer :=
  if answers.filter reviewable = [] then answers
  else
    match response with
    | none => answers
    | some revisions => calibrateApply revisions answers

/-! ## Consensus merge (src/extraction/extractor.py lines 569-698) -/

/-- priority dict with default 3 (lines 625-626). -/
def priorityRank : Confidence → Nat
  | Confidence.high => 0
  | Confidence.medium => 1
  | Confidence.low => 2
  | Confidence.missing => 3

/-- Comparison key for the stable sort at line 626. -/
def rankLE (a b : ExtractedAnswer) : Prop :=
  priorityRank a.confidence ≤ priorityRank b.confidence

instance : DecidableRel rankLE := fun a b =>
  Nat.decLe (priorityRank a.confidence) (priorityRank b.confidence)

/-- real_answers.sort(key=priority) at line 626.  Python list.sort is a
stable sort on this key; insertion sort by the non-strict key order is
stable, hence extensionally the same function. -/
def sortByPriority (l : List ExtractedAnswer) : List ExtractedAnswer :=
  List.insertionSort rankLE l

/-- Candidate filter at line 611: non-missing confidence and truthy
answer. -/
def realAnswers (candidates : List ExtractedAnswer) : List ExtractedAnswer :=
  candidates.filter (fun a => a.confidence ≠ Confidence.missing ∧ optTruthy a.answer)

/-- The structured-data check at lines 596-598: hubspot_data non-empty,
f.hubspot_property truthy and present as a key, and the stored value
truthy; returns str(value) when all hold. -/
def structuredValue (hubspotData : List (String × Option String))
    (f : RFIField) : Option String :=
  match f.hubspot_property with
  | none => none
  | some prop =>
      if hubspotData ≠ [] ∧ prop ≠ "" then
        match dictGet? prop hubspotData with
        | some hsValue => if optTruthy hsValue then some (pyStr hsValue) else none
        | none => none
      else none

/-- Merged entry built from structured data (lines 599-607). -/
def structuredAnswer (f : RFIField) (v : String) : ExtractedAnswer :=
  ⟨f.key, f.question, some v, Confidence.high, "HubSpot (structured)", "Direct CRM field", f.row⟩

/-- Merged entry for a field with no usable candidates (lines 613-621). -/
def missingAnswer (f : RFIField) : ExtractedAnswer :=
  ⟨f.key, f.question, none, Confidence.missing, "", "", f.row⟩

/-- unique_answers at line 633: set of the truthy answers of the
high-confidence candidates (set modelled as first-occurrence dedup; only
its size is consulted). -/
def uniqueAnswers (highConf : List ExtractedAnswer) : List (Option String) :=
  dedupFirst ((highConf.filter (fun a => optTruthy a.answer)).map (fun a => a.answer))

/-- State threaded through the first loop of merge_answers: merged,
potential_conflicts and conflict_indices (lines 586-590). -/
structure MergeState where
  merged : List ExtractedAnswer
  conflicts : List (String × List ExtractedAnswer)
  conflictIndices : List (String × Nat)
deriving Repr

/-- One iteration of the per-field loop of merge_answers (lines 592-639). -/
def processField (hubspotData : List (String × Option String))
    (allAnswers : List (String × List ExtractedAnswer))
    (st : MergeState) (f : RFIField) : MergeState :=
  match structuredValue hubspotData f with
  | some v => { st with merged := st.merged ++ [structuredAnswer f v] }
  | none =>
      let candidates := (dictGet? f.key allAnswers).getD []
      let real := realAnswers candidates
      if real = [] then { st with merged := st.merged ++ [missingAnswer f] }
      else
        let sortedReal := sortByPriority real
        let best := sortedReal.headI
        let highConf := sortedReal.filter (fun a => a.confidence = Confidence.high)
        if highConf.length > 1 ∧ (uniqueAnswers highConf).length > 1 then
          { merged := st.merged ++ [best]
            conflicts := st.conflicts ++ [(f.key, highConf)]
            conflictIndices := st.conflictIndices ++ [(f.key, st.merged.length)] }
        else { st with merged := st.merged ++ [best] }

/-- First loop of merge_answers over the field catalog. -/
def mergeFirstPass (fields : List RFIField)
    (hubspotData : List (String × Option String))
    (allAnswers : List (String × List ExtractedAnswer)) : MergeState :=
  fields.foldl (processField hubspotData allAnswers) ⟨[], [], []⟩

/-- The candidate list the merge loop reads for a field. -/
def candidatesOf (allAnswers : List (String × List ExtractedAnswer))
    (f : RFIField) : List ExtractedAnswer :=
  (dictGet? f.key allAnswers).getD []

/-- The field's usable candidates in priority order (line 626). -/
def sortedRealOf (allAnswers : List (String × List ExtractedAnswer))
    (f : RFIField) : List ExtractedAnswer :=
  sortByPriority (realAnswers (candidatesOf allAnswers f))

/-- high_conf at line 631 for a field. -/
def highsOf (allAnswers : List (String × List ExtractedAnswer))
    (f : RFIField) : List ExtractedAnswer :=
  (sortedRealOf allAnswers f).filter (fun a => a.confidence = Confidence.high)

/-- The high-confidence candidates with non-empty answers of a field, as
the deferral claim words it: taken directly from the field's candidate
list. -/
def highAnswerCandidates (allAnswers : List (String × List ExtractedAnswer))
    (f : RFIField) : List ExtractedAnswer :=
  (candidatesOf allAnswers f).filter
    (fun a => a.confidence = Confidence.high ∧ optTruthy a.answer)

/-- The per-field entry appended to merged by the first loop. -/
def mergeBase (hubspotData : List (String × Option String))
    (allAnswers : List (String × List ExtractedAnswer))
    (f : RFIField) : ExtractedAnswer :=
  match structuredValue hubspotData f with
  | some v => structuredAnswer f v
  | none =>
      if realAnswers (candidatesOf allAnswers f) = [] then missingAnswer f
      else (sortedRealOf allAnswers f).headI

/-- Whether the first loop defers the field into the conflict batch
(lines 630-637). -/
def isDeferred (hubspotData : List (String × Option String))
    (allAnswers : List (String × List ExtractedAnswer))
    (f : RFIField) : Prop :=
  structuredValue hubspotData f = none ∧
    realAnswers (candidatesOf allAnswers f) ≠ [] ∧
    1 < (highsOf allAnswers f).length ∧
    1 < (uniqueAnswers (highsOf allAnswers f)).length

instance (hubspotData : List (String × Option String))
    (allAnswers : List (String × List ExtractedAnswer)) (f : RFIField) :
    Decidable (isDeferred hubspotData allAnswers f) := by
  unfold isDeferred; infer_instance

/-- conflict_indices accumulated by the first loop, starting at offset n:
one entry per deferred field, recording its position. -/
def cisOf (hubspotData : List (String × Option String))
    (allAnswers : List (String × List ExtractedAnswer)) (n : Nat) :
    List RFIField → List (String × Nat)
  | [] => []
  | f :: fs =>
      (if isDeferred hubspotData allAnswers f then [(f.key, n)] else []) ++
        cisOf hubspotData allAnswers (n + 1) fs

/-- potential_conflicts accumulated by the first loop. -/
def conflictsOf (hubspotData : List (String × Option String))
    (allAnswers : List (String × List ExtractedAnswer)) :
    List RFIField → List (String × List ExtractedAnswer)
  | [] => []
  | f :: fs =>
      (if isDeferred hubspotData allAnswers f then [(f.key, highsOf allAnswers f)] else []) ++
        conflictsOf hubspotData allAnswers fs

/-- The outcome of _resolve_conflicts (lines 476-566) as consumed by
merge_answers: per-field compatibility verdicts and synthesized best
answers.  none models a raised resolver exception, an unparseable
resolver response, or a missing extractor — all three reduce to all-false
verdicts and no best answers (lines 550-554, 643-648 and 682-696). -/
structure Resolution where
  verdicts : List (String × Bool)
  bestAnswers : List (String × String)

/-- combined_sources at lines 652 and 686: ", ".join over the set of
source labels, set iteration modelled as first-occurrence order. -/
def combinedSources (highConf : List ExtractedAnswer) : String :=
  pyJoin ", " (dedupFirst (highConf.map (fun a => a.source)))

/-- max(high_conf, key=lambda a: len(a.answer or "")) at line 658; Python
max keeps the first maximum. -/
def maxByAnswerLen (highConf : List ExtractedAnswer) : ExtractedAnswer :=
  highConf.foldl
    (fun best a =>
      if (a.answer.getD "").length > (best.answer.getD "").length then a else best)
    highConf.headI

/-- Answer chosen in the compatible branch (lines 656-658): the synthesized
best answer if present and truthy, else the longest candidate answer. -/
def compatibleAnswer (res : Resolution) (fieldKey : String)
    (highConf : List ExtractedAnswer) : Option String :=
  match dictGet? fieldKey res.bestAnswers with
  | some s => if s ≠ "" then some s else (maxByAnswerLen highConf).answer
  | none => (maxByAnswerLen highConf).answer

/-- Evidence join at lines 659, 679 and 694: " / " over the truthy
evidence strings. -/
def combinedEvidence (highConf : List ExtractedAnswer) : String :=
  pyJoin " / "
    ((highConf.filter (fun a => a.evidence ≠ "")).map (fun a => a.evidence))

/-- The CONFLICTING answer text at lines 672-676 and 687-691. -/
def conflictingText (highConf : List ExtractedAnswer) : String :=
  "CONFLICTING: " ++ pyJoin " | "
    (highConf.map (fun a => "[" ++ a.source ++ "]: " ++ pyStr a.answer))

/-- The replacement written at merged[idx] for one deferred field
(lines 650-696). -/
def patchEntry (res : Resolution) (fieldKey : String)
    (highConf : List ExtractedAnswer) : ExtractedAnswer :=
  if (dictGet? fieldKey res.verdicts).getD false then
    { field_key := fieldKey
      question := highConf.headI.question
      answer := compatibleAnswer res fieldKey highConf
      confidence := Confidence.high
      source := combinedSources highConf
      evidence := combinedEvidence highConf
      row := highConf.headI.row }
  else
    { field_key := fieldKey
      question := highConf.headI.question
      answer := some (conflictingText highConf)
      confidence := Confidence.medium
      source := combinedSources highConf
      evidence := combinedEvidence highConf
      row := highConf.headI.row }

/-- Fallback verdicts used on resolver failure or when no extractor is
supplied: every deferred field conflicting, no synthesized answers. -/
def fallbackResolution (conflicts : List (String × List ExtractedAnswer)) : Resolution :=
  ⟨conflicts.map (fun p => (p.1, false)), []⟩

/-- Resolver outcome actually used by the second phase: the decoded
response when available, otherwise the all-conflicting fallback. -/
def resolvedResolution (resolution : Option Resolution)
    (conflicts : List (String × List ExtractedAnswer)) : Resolution :=
  match resolution with
  | some r => r
  | none => fallbackResolution conflicts

/-- The patch loop of the second phase: write each deferred field's
replacement at its recorded index. -/
def patchFold (res : Resolution) (conflictIndices : List (String × Nat))
    (conflicts : List (String × List ExtractedAnswer))
    (merged : List ExtractedAnswer) : List ExtractedAnswer :=
  conflicts.foldl
    (fun m p => m.set ((dictGet? p.1 conflictIndices).getD 0) (patchEntry res p.1 p.2))
    merged

/-- Second phase of merge_answers (lines 641-697): patch each deferred
field in place.  conflict_indices[field_key] always succeeds in the
source; the lookup default is never consulted when the state comes from
the first pass. -/
def applyConflicts (resolution : Option Resolution)
    (conflicts : List (String × List ExtractedAnswer))
    (conflictIndices : List (String × Nat))
    (merged : List ExtractedAnswer) : List ExtractedAnswer :=
  patchFold (resolvedResolution resolution conflicts) conflictIndices conflicts merged

/-- merge_answers (lines 569-698), parameterized by the field catalog (the
source reads the module-level RFI_FIELDS list) and by the resolver
outcome. -/
def merge_answers (fields : List RFIField)
    (allAnswers : List (String × List ExtractedAnswer))
    (hubspotData : List (String × Option String))
    (resolution : Option Resolution) : List ExtractedAnswer :=
  let st := mergeFirstPass fields hubspotData allAnswers
  applyConflicts resolution st.conflicts st.conflictIndices st.merged

/-! ## Orchestration (src/backend/services/extraction_service.py 171-219) -/

/-- has_calibration_candidates at lines 174-177. -/
def hasCalibrationCandidates (merged : List ExtractedAnswer) : Bool :=
  merged.any reviewable

/-- baseline_map construction at lines 188-199: keyed by each stored
record's field_key. -/
def baselineMapOf (baseline : List ExtractedAnswer) : List (String × ExtractedAnswer) :=
  baseline.map (fun a => (a.field_key, a))

/-- Baseline reconciliation loop at lines 200-210. -/
def reconcileBaseline (baselineMap : List (String × ExtractedAnswer))
    (merged : List ExtractedAnswer) : List ExtractedAnswer :=
  merged.map (fun answer =>
    match dictGet? answer.field_key baselineMap with
    | none => answer
    | some base =>
        let baseHas := base.confidence ≠ Confidence.missing ∧ optTruthy base.answer
        let newHas := answer.confidence ≠ Confidence.missing ∧ optTruthy answer.answer
        if baseHas ∧ ¬ newHas then base
        else if baseHas ∧ newHas then
          if ¬ (answer.confidence = Confidence.high ∧ base.confidence = Confidence.low)
          then base
          else answer
        else answer)

/-- Manual-override pass at lines 212-219. -/
def applyOverrides (manualOverrides : List (String × String))
    (merged : List ExtractedAnswer) : List ExtractedAnswer :=
  merged.map (fun answer =>
    let overrideVal := (dictGet? answer.field_key manualOverrides).getD ""
    if pyStrip overrideVal ≠ "" then
      { answer with
          answer := some (pyStrip overrideVal)
          confidence := Confidence.high
          source := "Manual entry"
          evidence := "" }
    else answer)

/-- The pure merge portion of _do_extraction (steps 6-8, lines 171-219):
merge, calibration when candidates exist, baseline reconciliation when a
baseline run is available, then manual overrides. -/
def pipelineMerge (fields : List RFIField)
    (allAnswers : List (String × List ExtractedAnswer))
    (hubspotData : List (String × Option String))
    (resolution : Option Resolution)
    (calibration : Option (List (String × Confidence)))
    (baseline : Option (List ExtractedAnswer))
    (manualOverrides : List (String × String)) : List ExtractedAnswer :=
  let merged := merge_answers fields allAnswers hubspotData resolution
  let merged := if hasCalibrationCandidates merged
    then calibrate_confidence merged calibration
    else merged
  let merged := match baseline with
    | some b => reconcileBaseline (baselineMapOf b) merged
    | none => merged
  applyOverrides manualOverrides merged

/-! ## Generic lemmas -/

theorem headI_mem {α : Type} [Inhabited α] {l : List α} (h : l ≠ []) : l.headI ∈ l := by
  cases l with
  | nil => exact absurd rfl h
  | cons a t => exact List.mem_cons_self a t

theorem dictGet?_mem {α : Type} {k : String} {l : List (String × α)} {v : α}
    (h : dictGet? k l = some v) : (k, v) ∈ l := by
  unfold dictGet? at h
  cases hf : l.reverse.find? (fun p => p.1 = k) with
  | none => rw [hf] at h; simp at h
  | some p =>
      rw [hf] at h
      have hm := List.mem_of_find?_eq_some hf
      have hp := List.find?_some hf
      rw [List.mem_reverse] at hm
      obtain ⟨p1, p2⟩ := p
      have hk : p1 = k := by simpa using hp
      have hv : p2 = v := by simpa using h
      rw [hk, hv] at hm
      exact hm

theorem dictGet?_isSome_of_mem {α : Type} {k : String} {v : α} {l : List (String × α)}
    (h : (k, v) ∈ l) : (dictGet? k l).isSome := by
  unfold dictGet?
  cases hf : l.reverse.find? (fun p => p.1 = k) with
  | some p => simp
  | none =>
      rw [List.find?_eq_none] at hf
      have := hf (k, v) (List.mem_reverse.mpr h)
      simp at this

theorem mem_dedupFirstAux {α : Type} [DecidableEq α] {x : α} :
    ∀ (l seen : List α), x ∈ dedupFirstAux seen l ↔ x ∈ l ∧ x ∉ seen := by
  intro l
  induction l with
  | nil => intro seen; simp [dedupFirstAux]
  | cons a t ih =>
      intro seen
      by_cases ha : a ∈ seen
      · rw [dedupFirstAux, if_pos ha, ih]
        constructor
        · rintro ⟨hx, hs⟩; exact ⟨List.mem_cons_of_mem a hx, hs⟩
        · rintro ⟨hx, hs⟩
          rcases List.mem_cons.mp hx with rfl | hx
          · exact absurd ha hs
          · exact ⟨hx, hs⟩
      · rw [dedupFirstAux, if_neg ha]
        constructor
        · intro hx
          rcases List.mem_cons.mp hx with rfl | hx
          · exact ⟨List.mem_cons_self x t, ha⟩
          · rw [ih] at hx
            refine ⟨List.mem_cons_of_mem a hx.1, fun hs => hx.2 (List.mem_cons_of_mem a hs)⟩
        · rintro ⟨hx, hs⟩
          rcases List.mem_cons.mp hx with rfl | hx
          · exact List.mem_cons_self x _
          · by_cases hxa : x = a
            · subst hxa; exact List.mem_cons_self x _
            · refine List.mem_cons_of_mem a ?_
              rw [ih]
              refine ⟨hx, fun hm => ?_⟩
              rcases List.mem_cons.mp hm with h1 | h1
              · exact hxa h1
              · exact hs h1

theorem nodup_dedupFirstAux {α : Type} [DecidableEq α] :
    ∀ (l seen : List α), (dedupFirstAux seen l).Nodup := by
  intro l
  induction l with
  | nil => intro seen; simp [dedupFirstAux]
  | cons a t ih =>
      intro seen
      by_cases ha : a ∈ seen
      · rw [dedupFirstAux, if_pos ha]; exact ih seen
      · rw [dedupFirstAux, if_neg ha, List.nodup_cons]
        refine ⟨fun hmem => ?_, ih (a :: seen)⟩
        rw [mem_dedupFirstAux] at hmem
        exact hmem.2 (List.mem_cons_self a seen)

theorem mem_dedupFirst {α : Type} [DecidableEq α] {x : α} {l : List α} :
    x ∈ dedupFirst l ↔ x ∈ l := by
  unfold dedupFirst; rw [mem_dedupFirstAux]; simp

theorem nodup_dedupFirst {α : Type} [DecidableEq α] (l : List α) :
    (dedupFirst l).Nodup :=
  nodup_dedupFirstAux l []

theorem dedupFirst_length_le_one {α : Type} [DecidableEq α] {l : List α}
    (h : ∀ x ∈ l, ∀ y ∈ l, x = y) : (dedupFirst l).length ≤ 1 := by
  cases hd : dedupFirst l with
  | nil => simp
  | cons z zs =>
      cases hz : zs with
      | nil => simp
      | cons w ws =>
          exfalso
          have hnd := nodup_dedupFirst l
          rw [hd, hz, List.nodup_cons] at hnd
          have hzl : z ∈ l := mem_dedupFirst.mp (by rw [hd]; exact List.mem_cons_self z zs)
          have hwl : w ∈ l := mem_dedupFirst.mp
            (by rw [hd, hz]; exact List.mem_cons_of_mem z (List.mem_cons_self w ws))
          exact hnd.1 (by rw [h z hzl w hwl]; exact List.mem_cons_self w ws)

theorem one_lt_dedupFirst_length {α : Type} [DecidableEq α] {l : List α}
    (x y : α) (hx : x ∈ l) (hy : y ∈ l) (hxy : x ≠ y) : 1 < (dedupFirst l).length := by
  by_contra hle
  push_neg at hle
  have hx2 : x ∈ dedupFirst l := mem_dedupFirst.mpr hx
  have hy2 : y ∈ dedupFirst l := mem_dedupFirst.mpr hy
  cases hd : dedupFirst l with
  | nil => rw [hd] at hx2; simp at hx2
  | cons z zs =>
      rw [hd] at hx2 hy2 hle
      simp only [List.length_cons] at hle
      have hzs : zs = [] := List.length_eq_zero.mp (by omega)
      subst hzs
      simp only [List.mem_singleton] at hx2 hy2
      exact hxy (hx2.trans hy2.symm)

theorem exists_ne_of_one_lt_dedupFirst {α : Type} [DecidableEq α] {l : List α}
    (h : 1 < (dedupFirst l).length) : ∃ x ∈ l, ∃ y ∈ l, x ≠ y := by
  cases hd : dedupFirst l with
  | nil => rw [hd] at h; simp at h
  | cons z zs =>
      cases hz : zs with
      | nil => rw [hd, hz] at h; simp at h
      | cons w ws =>
          have hnd := nodup_dedupFirst l
          rw [hd, hz, List.nodup_cons] at hnd
          have hzw : z ≠ w := fun he => hnd.1 (he ▸ List.mem_cons_self w ws)
          refine ⟨z, ?_, w, ?_, hzw⟩
          · exact mem_dedupFirst.mp (by rw [hd]; exact List.mem_cons_self z zs)
          · exact mem_dedupFirst.mp
              (by rw [hd, hz]; exact List.mem_cons_of_mem z (List.mem_cons_self w ws))

/-! ## Chunker lemmas -/

theorem length_pyJoin_append_singleton (sep : String) :
    ∀ (l : List String) (u : String), l ≠ [] →
      (pyJoin sep (l ++ [u])).length = (pyJoin sep l).length + sep.length + u.length := by
  intro l
  induction l with
  | nil => intro u h; exact absurd rfl h
  | cons a t ih =>
      intro u _
      cases t with
      | nil => simp [pyJoin, String.length_append]
      | cons b t2 =>
          have h2 := ih u (by simp)
          simp only [List.cons_append] at h2 ⊢
          simp only [pyJoin, String.length_append] at h2 ⊢
          omega

theorem length_joinNN_append (l : List String) (u : String) (h : l ≠ []) :
    (joinNN (l ++ [u])).length = (joinNN l).length + 2 + u.length := by
  unfold joinNN
  rw [length_pyJoin_append_singleton _ l u h,
    show ("\n\n" : String).length = 2 from rfl]

theorem joinNN_singleton (u : String) : joinNN [u] = u := rfl

/-- Invariant proof for the greedy packing loop: every emitted chunk either
fits in maxChars or is the join of a single unit. -/
theorem packLoop_bound (maxChars : Nat) (units0 : List String) :
    ∀ (rest chunks current : List String) (currentLen : Nat),
      (∀ c ∈ chunks, c.length ≤ maxChars ∨ c ∈ units0) →
      (∀ u ∈ current, u ∈ units0) →
      (∀ u ∈ rest, u ∈ units0) →
      ((current = [] ∧ currentLen = 0) ∨
        (current ≠ [] ∧ currentLen = (joinNN current).length + 2)) →
      ((joinNN current).length ≤ maxChars ∨ ∃ u, current = [u]) →
      ∀ c ∈ packLoop maxChars chunks current currentLen rest,
        c.length ≤ maxChars ∨ c ∈ units0 := by
  intro rest
  induction rest with
  | nil =>
      intro chunks current currentLen h1 h2 _ _ h5 c hc
      rw [packLoop] at hc
      split at hc
      · rcases List.mem_append.mp hc with hcc | hcc
        · exact h1 c hcc
        · rw [List.mem_singleton] at hcc
          subst hcc
          rcases h5 with h5 | ⟨u, hu⟩
          · exact Or.inl h5
          · subst hu
            rw [joinNN_singleton]
            exact Or.inr (h2 u (List.mem_singleton.mpr rfl))
      · exact h1 c hc
  | cons u rest ih =>
      intro chunks current currentLen h1 h2 h3 h4 h5 c hc
      rw [packLoop] at hc
      split at hc
      case isTrue hcond =>
        refine ih (chunks ++ [joinNN current]) [u] (u.length + 2) ?_ ?_ ?_ ?_ ?_ c hc
        · intro d hd
          rcases List.mem_append.mp hd with hdd | hdd
          · exact h1 d hdd
          · rw [List.mem_singleton] at hdd
            subst hdd
            rcases h5 with h5 | ⟨w, hw⟩
            · exact Or.inl h5
            · subst hw
              rw [joinNN_singleton]
              exact Or.inr (h2 w (List.mem_singleton.mpr rfl))
        · intro w hw
          rw [List.mem_singleton] at hw
          subst hw
          exact h3 w (List.mem_cons_self w rest)
        · exact fun w hw => h3 w (List.mem_cons_of_mem u hw)
        · exact Or.inr ⟨by simp, by rw [joinNN_singleton]⟩
        · exact Or.inr ⟨u, rfl⟩
      case isFalse hcond =>
        by_cases hnil : current = []
        · subst hnil
          rcases h4 with ⟨_, hlen⟩ | ⟨hne, _⟩
          · subst hlen
            refine ih chunks [u] (0 + u.length + 2) h1 ?_ ?_ ?_ ?_ c hc
            · intro w hw
              rw [List.mem_singleton] at hw
              subst hw
              exact h3 w (List.mem_cons_self w rest)
            · exact fun w hw => h3 w (List.mem_cons_of_mem u hw)
            · exact Or.inr ⟨by simp, by rw [joinNN_singleton]; omega⟩
            · exact Or.inr ⟨u, rfl⟩
          · exact absurd rfl hne
        · have hfit : currentLen + u.length ≤ maxChars := by
            rcases not_and_or.mp hcond with hgt | hne
            · omega
            · exact absurd hnil (by simpa using hne)
          rcases h4 with ⟨heq, _⟩ | ⟨_, hlen⟩
          · exact absurd heq hnil
          · refine ih chunks (current ++ [u]) (currentLen + u.length + 2) h1 ?_ ?_ ?_ ?_ c hc
            · intro w hw
              rcases List.mem_append.mp hw with hww | hww
              · exact h2 w hww
              · rw [List.mem_singleton] at hww
                subst hww
                exact h3 w (List.mem_cons_self w rest)
            · exact fun w hw => h3 w (List.mem_cons_of_mem u hw)
            · refine Or.inr ⟨by simp, ?_⟩
              rw [length_joinNN_append current u hnil]
              omega
            · refine Or.inl ?_
              rw [length_joinNN_append current u hnil]
              omega

/-- Every chunk produced by the greedy packer fits in maxChars or is a
single packing unit. -/
theorem packUnits_bound (maxChars : Nat) (units : List String) :
    ∀ c ∈ packUnits maxChars units, c.length ≤ maxChars ∨ c ∈ units := by
  intro c hc
  refine packLoop_bound maxChars units units [] [] 0 ?_ ?_ ?_ ?_ ?_ c hc
  · intro d hd; simp at hd
  · intro w hw; simp at hw
  · exact fun w hw => hw
  · exact Or.inl ⟨rfl, rfl⟩
  · exact Or.inl (by simp [joinNN, pyJoin])

/-! ## Merge first-pass characterization -/

theorem processField_eq (hub : List (String × Option String))
    (all : List (String × List ExtractedAnswer)) (st : MergeState) (f : RFIField) :
    processField hub all st f =
      ⟨st.merged ++ [mergeBase hub all f],
       st.conflicts ++ (if isDeferred hub all f then [(f.key, highsOf all f)] else []),
       st.conflictIndices ++
         (if isDeferred hub all f then [(f.key, st.merged.length)] else [])⟩ := by
  cases hs : structuredValue hub f with
  | some v => simp [processField, mergeBase, isDeferred, hs]
  | none =>
      by_cases hr : realAnswers ((dictGet? f.key all).getD []) = []
      · simp [processField, mergeBase, isDeferred, candidatesOf, hs, hr]
      · simp [processField, mergeBase, isDeferred, highsOf, sortedRealOf, candidatesOf,
          hs, hr, gt_iff_lt]
        split_ifs with h
        · simp
        · simp

theorem mergeFold_eq (hub : List (String × Option String))
    (all : List (String × List ExtractedAnswer)) :
    ∀ (fields : List RFIField) (st : MergeState),
      fields.foldl (processField hub all) st =
        ⟨st.merged ++ fields.map (mergeBase hub all),
         st.conflicts ++ conflictsOf hub all fields,
         st.conflictIndices ++ cisOf hub all st.merged.length fields⟩ := by
  intro fields
  induction fields with
  | nil => intro st; simp [cisOf, conflictsOf]
  | cons f fs ih =>
      intro st
      rw [List.foldl_cons, processField_eq, ih]
      simp only [List.map_cons, conflictsOf, cisOf]
      by_cases hd : isDeferred hub all f
      · simp [hd, List.length_append]
      · simp [hd]

theorem mergeFirstPass_merged (fields : List RFIField)
    (hub : List (String × Option String))
    (all : List (String × List ExtractedAnswer)) :
    (mergeFirstPass fields hub all).merged = fields.map (mergeBase hub all) := by
  unfold mergeFirstPass
  rw [mergeFold_eq]
  simp

theorem mergeFirstPass_conflicts (fields : List RFIField)
    (hub : List (String × Option String))
    (all : List (String × List ExtractedAnswer)) :
    (mergeFirstPass fields hub all).conflicts = conflictsOf hub all fields := by
  unfold mergeFirstPass
  rw [mergeFold_eq]
  simp

theorem mergeFirstPass_cis (fields : List RFIField)
    (hub : List (String × Option String))
    (all : List (String × List ExtractedAnswer)) :
    (mergeFirstPass fields hub all).conflictIndices = cisOf hub all 0 fields := by
  unfold mergeFirstPass
  rw [mergeFold_eq]
  simp

theorem cisOf_mem_iff (hub : List (String × Option String))
    (all : List (String × List ExtractedAnswer)) :
    ∀ (fields : List RFIField) (n : Nat) (fk : String) (j : Nat),
      (fk, j) ∈ cisOf hub all n fields ↔
        ∃ k f, fields[k]? = some f ∧ j = n + k ∧ isDeferred hub all f ∧ fk = f.key := by
  intro fields
  induction fields with
  | nil => intro n fk j; simp [cisOf]
  | cons f fs ih =>
      intro n fk j
      rw [cisOf]
      by_cases hd : isDeferred hub all f
      · rw [if_pos hd]
        simp only [List.singleton_append, List.mem_cons, ih]
        constructor
        · rintro (heq | ⟨k, g, hg, hj, hdg, hfk⟩)
          · obtain ⟨h1, h2⟩ := Prod.mk.injEq .. ▸ heq
            exact ⟨0, f, by simp, by omega, hd, h1⟩
          · exact ⟨k + 1, g, by simpa using hg, by omega, hdg, hfk⟩
        · rintro ⟨k, g, hg, hj, hdg, hfk⟩
          cases k with
          | zero =>
              rw [List.getElem?_cons_zero] at hg
              injection hg with hg
              subst hg
              left
              rw [hfk, hj]
              simp
          | succ k2 =>
              right
              exact ⟨k2, g, by simpa using hg, by omega, hdg, hfk⟩
      · rw [if_neg hd]
        simp only [List.nil_append, ih]
        constructor
        · rintro ⟨k, g, hg, hj, hdg, hfk⟩
          exact ⟨k + 1, g, by simpa using hg, by omega, hdg, hfk⟩
        · rintro ⟨k, g, hg, hj, hdg, hfk⟩
          cases k with
          | zero =>
              rw [List.getElem?_cons_zero] at hg
              injection hg with hg
              subst hg
              exact absurd hdg hd
          | succ k2 =>
              exact ⟨k2, g, by simpa using hg, by omega, hdg, hfk⟩

theorem conflictsOf_mem_iff (hub : List (String × Option String))
    (all : List (String × List ExtractedAnswer)) :
    ∀ (fields : List RFIField) (fk : String) (hc : List ExtractedAnswer),
      (fk, hc) ∈ conflictsOf hub all fields ↔
        ∃ f ∈ fields, isDeferred hub all f ∧ fk = f.key ∧ hc = highsOf all f := by
  intro fields
  induction fields with
  | nil => intro fk hc; simp [conflictsOf]
  | cons f fs ih =>
      intro fk hc
      rw [conflictsOf]
      by_cases hd : isDeferred hub all f
      · rw [if_pos hd]
        simp only [List.singleton_append, List.mem_cons, ih]
        constructor
        · rintro (heq | ⟨g, hg, hdg, hfk, hhc⟩)
          · obtain ⟨h1, h2⟩ := Prod.mk.injEq .. ▸ heq
            exact ⟨f, Or.inl rfl, hd, h1, h2⟩
          · exact ⟨g, Or.inr hg, hdg, hfk, hhc⟩
        · rintro ⟨g, rfl | hg, hdg, hfk, hhc⟩
          · left; rw [hfk, hhc]
          · right; exact ⟨g, hg, hdg, hfk, hhc⟩
      · rw [if_neg hd]
        simp only [List.nil_append, List.mem_cons, ih]
        constructor
        · rintro ⟨g, hg, hdg, hfk, hhc⟩
          exact ⟨g, Or.inr hg, hdg, hfk, hhc⟩
        · rintro ⟨g, rfl | hg, hdg, hfk, hhc⟩
          · exact absurd hdg hd
          · exact ⟨g, hg, hdg, hfk, hhc⟩

/-! ## Patch-phase lemmas -/

theorem patchEntry_field_key (res : Resolution) (fk : String)
    (hc : List ExtractedAnswer) : (patchEntry res fk hc).field_key = fk := by
  unfold patchEntry
  split <;> rfl

theorem patchFold_cons (res : Resolution) (cis : List (String × Nat))
    (p : String × List ExtractedAnswer) (ps : List (String × List ExtractedAnswer))
    (merged : List ExtractedAnswer) :
    patchFold res cis (p :: ps) merged =
      patchFold res cis ps
        (merged.set ((dictGet? p.1 cis).getD 0) (patchEntry res p.1 p.2)) := rfl

theorem patchFold_length (res : Resolution) (cis : List (String × Nat)) :
    ∀ (conflicts : List (String × List ExtractedAnswer)) (merged : List ExtractedAnswer),
      (patchFold res cis conflicts merged).length = merged.length := by
  intro conflicts
  induction conflicts with
  | nil => intro merged; rfl
  | cons p ps ih =>
      intro merged
      rw [patchFold_cons, ih, List.length_set]

theorem patchFold_getElem?_of_ne (res : Resolution) (cis : List (String × Nat)) :
    ∀ (conflicts : List (String × List ExtractedAnswer)) (merged : List ExtractedAnswer)
      (i : Nat),
      (∀ p ∈ conflicts, (dictGet? p.1 cis).getD 0 ≠ i) →
      (patchFold res cis conflicts merged)[i]? = merged[i]? := by
  intro conflicts
  induction conflicts with
  | nil => intro merged i _; rfl
  | cons p ps ih =>
      intro merged i h
      rw [patchFold_cons, ih _ i (fun q hq => h q (List.mem_cons_of_mem p hq)),
        List.getElem?_set_ne (h p (List.mem_cons_self p ps))]

theorem patchFold_getElem?_target (res : Resolution) (cis : List (String × Nat))
    (pre post : List (String × List ExtractedAnswer)) (fk : String)
    (hc : List ExtractedAnswer) (merged : List ExtractedAnswer) (i : Nat)
    (hidx : (dictGet? fk cis).getD 0 = i) (hlen : i < merged.length)
    (hpost : ∀ p ∈ post, (dictGet? p.1 cis).getD 0 ≠ i) :
    (patchFold res cis (pre ++ (fk, hc) :: post) merged)[i]? =
      some (patchEntry res fk hc) := by
  unfold patchFold
  rw [List.foldl_append, List.foldl_cons]
  have hpre : ∀ (m : List ExtractedAnswer),
      List.foldl
        (fun m p => m.set ((dictGet? p.1 cis).getD 0) (patchEntry res p.1 p.2)) m pre =
        patchFold res cis pre m := fun m => rfl
  rw [hpre]
  have hlen2 : i < (patchFold res cis pre merged).length := by
    rw [patchFold_length]; exact hlen
  have hfold : ∀ (m : List ExtractedAnswer),
      List.foldl
        (fun m p => m.set ((dictGet? p.1 cis).getD 0) (patchEntry res p.1 p.2)) m post =
        patchFold res cis post m := fun m => rfl
  rw [hfold, patchFold_getElem?_of_ne res cis post _ i hpost, hidx,
    List.getElem?_set_self hlen2]

theorem patchFold_getElem?_cases (res : Resolution) (cis : List (String × Nat)) :
    ∀ (conflicts : List (String × List ExtractedAnswer)) (merged : List ExtractedAnswer)
      (i : Nat),
      (patchFold res cis conflicts merged)[i]? = merged[i]? ∨
        ∃ p ∈ conflicts, (dictGet? p.1 cis).getD 0 = i ∧
          (patchFold res cis conflicts merged)[i]? = some (patchEntry res p.1 p.2) := by
  intro conflicts
  induction conflicts with
  | nil => intro merged i; exact Or.inl rfl
  | cons p ps ih =>
      intro merged i
      rw [patchFold_cons]
      rcases ih (merged.set ((dictGet? p.1 cis).getD 0) (patchEntry res p.1 p.2)) i with
        h | ⟨q, hq, hqi, hval⟩
      · by_cases hidx : (dictGet? p.1 cis).getD 0 = i
        · by_cases hlen : i < merged.length
          · refine Or.inr ⟨p, List.mem_cons_self p ps, hidx, ?_⟩
            rw [h, hidx, List.getElem?_set_self hlen]
          · refine Or.inl ?_
            rw [h, hidx, List.set_eq_of_length_le (by omega)]
        · exact Or.inl (h.trans (List.getElem?_set_ne hidx))
      · exact Or.inr ⟨q, List.mem_cons_of_mem p hq, hqi, hval⟩

/-! ## Sorting and per-field lemmas -/

instance : IsTotal ExtractedAnswer rankLE :=
  ⟨fun a b => Nat.le_total (priorityRank a.confidence) (priorityRank b.confidence)⟩

instance : IsTrans ExtractedAnswer rankLE :=
  ⟨fun _ _ _ hab hbc => Nat.le_trans hab hbc⟩

theorem sortByPriority_perm (l : List ExtractedAnswer) : (sortByPriority l).Perm l :=
  List.perm_insertionSort rankLE l

theorem sortByPriority_ne_nil {l : List ExtractedAnswer} (h : l ≠ []) :
    sortByPriority l ≠ [] := by
  intro he
  have hperm := sortByPriority_perm l
  rw [he] at hperm
  exact h hperm.symm.eq_nil

theorem sortByPriority_head_min {l : List ExtractedAnswer} (hne : l ≠ []) :
    (sortByPriority l).headI ∈ l ∧
      ∀ b ∈ l, priorityRank (sortByPriority l).headI.confidence ≤
        priorityRank b.confidence := by
  have hperm := sortByPriority_perm l
  have hsorted : List.Sorted rankLE (sortByPriority l) :=
    List.sorted_insertionSort rankLE l
  cases hs : sortByPriority l with
  | nil => exact absurd hs (sortByPriority_ne_nil hne)
  | cons h t =>
      rw [hs] at hperm hsorted
      constructor
      · exact hperm.mem_iff.mp (List.mem_cons_self h t)
      · intro b hb
        rcases List.mem_cons.mp (hperm.mem_iff.mpr hb) with rfl | hbt
        · exact Nat.le_refl _
        · exact List.rel_of_sorted_cons hsorted b hbt

/-! ## Field-key preservation -/

theorem merge_answers_eq (fields : List RFIField)
    (all : List (String × List ExtractedAnswer))
    (hub : List (String × Option String)) (res : Option Resolution) :
    merge_answers fields all hub res =
      patchFold (resolvedResolution res (conflictsOf hub all fields))
        (cisOf hub all 0 fields) (conflictsOf hub all fields)
        (fields.map (mergeBase hub all)) := by
  simp only [merge_answers, applyConflicts, mergeFirstPass_merged,
    mergeFirstPass_conflicts, mergeFirstPass_cis]

theorem mergeBase_field_key (hub : List (String × Option String))
    (all : List (String × List ExtractedAnswer)) (f : RFIField)
    (hwf : ∀ p ∈ all, ∀ a ∈ p.2, a.field_key = p.1) :
    (mergeBase hub all f).field_key = f.key := by
  cases hs : structuredValue hub f with
  | some v => simp [mergeBase, hs, structuredAnswer]
  | none =>
      by_cases hr : realAnswers (candidatesOf all f) = []
      · simp [mergeBase, hs, hr, missingAnswer]
      · simp only [mergeBase, hs, if_neg hr]
        have hne : sortedRealOf all f ≠ [] := by
          unfold sortedRealOf
          exact sortByPriority_ne_nil hr
        have h1 := headI_mem hne
        unfold sortedRealOf at h1
        have hmem : (sortedRealOf all f).headI ∈ realAnswers (candidatesOf all f) :=
          (sortByPriority_perm _).mem_iff.mp h1
        have hcand : (sortedRealOf all f).headI ∈ candidatesOf all f :=
          (List.mem_filter.mp hmem).1
        unfold candidatesOf at hcand
        cases hlook : dictGet? f.key all with
        | none => rw [hlook] at hcand; simp at hcand
        | some L =>
            rw [hlook, Option.getD_some] at hcand
            exact hwf (f.key, L) (dictGet?_mem hlook) _ hcand

theorem patchFold_map_key (res : Resolution) (cis : List (String × Nat))
    (conflicts : List (String × List ExtractedAnswer)) (merged : List ExtractedAnswer)
    (hkeys : ∀ p ∈ conflicts, ∃ j, dictGet? p.1 cis = some j)
    (hcis : ∀ fk j, (fk, j) ∈ cis →
      ∃ h : j < merged.length, (merged.get ⟨j, h⟩).field_key = fk) :
    (patchFold res cis conflicts merged).map (fun a => a.field_key) =
      merged.map (fun a => a.field_key) := by
  apply List.ext_getElem?
  intro n
  rcases patchFold_getElem?_cases res cis conflicts merged n with h | ⟨p, hp, hpi, hval⟩
  · rw [List.getElem?_map, List.getElem?_map, h]
  · obtain ⟨j, hj⟩ := hkeys p hp
    rw [hj, Option.getD_some] at hpi
    subst hpi
    obtain ⟨hlt, hkey⟩ := hcis p.1 j (dictGet?_mem hj)
    rw [List.getElem?_map, List.getElem?_map, hval, List.getElem?_eq_getElem hlt]
    rw [List.get_eq_getElem] at hkey
    simp [patchEntry_field_key, hkey]

theorem merge_answers_map_key (fields : List RFIField)
    (all : List (String × List ExtractedAnswer))
    (hub : List (String × Option String)) (res : Option Resolution)
    (hwf : ∀ p ∈ all, ∀ a ∈ p.2, a.field_key = p.1) :
    (merge_answers fields all hub res).map (fun a => a.field_key) =
      fields.map (fun f => f.key) := by
  rw [merge_answers_eq]
  rw [patchFold_map_key]
  · rw [List.map_map]
    exact List.map_congr_left (fun f _ => mergeBase_field_key hub all f hwf)
  · intro p hp
    rw [conflictsOf_mem_iff] at hp
    obtain ⟨g, hg, hdg, hfk, _⟩ := hp
    obtain ⟨k, hk⟩ := List.mem_iff_getElem?.mp hg
    have hmem : (p.1, 0 + k) ∈ cisOf hub all 0 fields :=
      (cisOf_mem_iff hub all fields 0 p.1 (0 + k)).mpr ⟨k, g, hk, rfl, hdg, hfk⟩
    have hsome := dictGet?_isSome_of_mem hmem
    exact Option.isSome_iff_exists.mp hsome
  · intro fk j hj
    rw [cisOf_mem_iff] at hj
    obtain ⟨k, g, hk, hjk, hdg, hfk⟩ := hj
    have hklt : k < fields.length := by
      rcases List.getElem?_eq_some_iff.mp hk with ⟨h, _⟩
      exact h
    have hjlt : j < (fields.map (mergeBase hub all)).length := by
      rw [List.length_map]; omega
    refine ⟨hjlt, ?_⟩
    rw [List.get_eq_getElem]
    have hjeq : j = k := by omega
    subst hjeq
    have : (fields.map (mergeBase hub all))[j] = mergeBase hub all fields[j] := by
      rw [List.getElem_map]
    rw [this, mergeBase_field_key hub all _ hwf, hfk]
    have : fields[j] = g := by
      rcases List.getElem?_eq_some_iff.mp hk with ⟨h2, he⟩
      exact he
    rw [this]

theorem calibrateApply_map_key (rm : List (String × Confidence))
    (l : List ExtractedAnswer) :
    (calibrateApply rm l).map (fun a => a.field_key) =
      l.map (fun a => a.field_key) := by
  unfold calibrateApply
  rw [List.map_map]
  apply List.map_congr_left
  intro a _
  simp only [Function.comp]
  cases dictGet? a.field_key rm with
  | none => rfl
  | some revised =>
      by_cases hgt : (downgradeOrder revised).getD 0 > (downgradeOrder a.confidence).getD 0
      · simp only [if_pos hgt]
      · simp only [if_neg hgt]

theorem calibrate_map_key (l : List ExtractedAnswer)
    (resp : Option (List (String × Confidence))) :
    (calibrate_confidence l resp).map (fun a => a.field_key) =
      l.map (fun a => a.field_key) := by
  unfold calibrate_confidence
  split
  · rfl
  · cases resp with
    | none => rfl
    | some revisions => exact calibrateApply_map_key revisions l

theorem reconcileBaseline_map_key (b : List ExtractedAnswer)
    (l : List ExtractedAnswer) :
    (reconcileBaseline (baselineMapOf b) l).map (fun a => a.field_key) =
      l.map (fun a => a.field_key) := by
  unfold reconcileBaseline
  rw [List.map_map]
  apply List.map_congr_left
  intro a _
  simp only [Function.comp]
  cases hlook : dictGet? a.field_key (baselineMapOf b) with
  | none => rfl
  | some base =>
      have hmem := dictGet?_mem hlook
      unfold baselineMapOf at hmem
      rw [List.mem_map] at hmem
      obtain ⟨x, _, hpair⟩ := hmem
      have h1 : x.field_key = a.field_key := congrArg Prod.fst hpair
      have h2 : x = base := congrArg Prod.snd hpair
      have hbk : base.field_key = a.field_key := by rw [← h2]; exact h1
      dsimp only
      split_ifs <;> simp [hbk]

theorem applyOverrides_map_key (ovs : List (String × String))
    (l : List ExtractedAnswer) :
    (applyOverrides ovs l).map (fun a => a.field_key) =
      l.map (fun a => a.field_key) := by
  unfold applyOverrides
  rw [List.map_map]
  apply List.map_congr_left
  intro a _
  simp only [Function.comp]
  split <;> rfl

/-- C1: for every candidate mapping (keyed consistently with its records,
as the dispatcher builds it), structured data, resolver outcome,
calibration response, baseline and manual overrides, the merged list
produced by merge + calibration + baseline reconciliation + manual
overrides has exactly one entry per schema field, with field keys equal to
the schema field keys in schema order (missing fields included). -/
theorem C1_one_entry_per_field_in_schema_order
    (fields : List RFIField) (all : List (String × List ExtractedAnswer))
    (hub : List (String × Option String)) (res : Option Resolution)
    (cal : Option (List (String × Confidence)))
    (base : Option (List ExtractedAnswer)) (ovs : List (String × String))
    (hwf : ∀ p ∈ all, ∀ a ∈ p.2, a.field_key = p.1) :
    (pipelineMerge fields all hub res cal base ovs).map (fun a => a.field_key) =
      fields.map (fun f => f.key) := by
  unfold pipelineMerge
  rw [applyOverrides_map_key]
  have hbase : ∀ (m : List ExtractedAnswer),
      ((match base with
        | some b => reconcileBaseline (baselineMapOf b) m
        | none => m) : List ExtractedAnswer).map (fun a => a.field_key) =
        m.map (fun a => a.field_key) := by
    intro m
    cases base with
    | none => rfl
    | some b => exact reconcileBaseline_map_key b m
  rw [hbase]
  have hcal : ∀ (m : List ExtractedAnswer),
      ((if hasCalibrationCandidates m then calibrate_confidence m cal else m)).map
          (fun a => a.field_key) = m.map (fun a => a.field_key) := by
    intro m
    split
    · exact calibrate_map_key m cal
    · rfl
  rw [hcal]
  exact merge_answers_map_key fields all hub res hwf

/-- Witness for C1 at a concrete input. -/
theorem C1_one_entry_per_field_in_schema_order_witness :
    (∀ p ∈ ([("number_of_users",
        [(⟨"number_of_users", "Number of Users?", some "70", Confidence.high,
            "t1", "ev", 4⟩ : ExtractedAnswer)])] :
        List (String × List ExtractedAnswer)), ∀ a ∈ p.2, a.field_key = p.1) ∧
    (pipelineMerge
        [⟨4, "number_of_users", "Number of Users?", "hint", some "numberofemployees"⟩,
         ⟨5, "number_of_devices", "Number of Machines?", "hint2", none⟩]
        [("number_of_users",
          [⟨"number_of_users", "Number of Users?", some "70", Confidence.high,
              "t1", "ev", 4⟩])]
        [] none none none []).map (fun a => a.field_key) =
      ["number_of_users", "number_of_devices"] := by
  constructor
  · decide
  · exact C1_one_entry_per_field_in_schema_order
      [⟨4, "number_of_users", "Number of Users?", "hint", some "numberofemployees"⟩,
       ⟨5, "number_of_devices", "Number of Machines?", "hint2", none⟩]
      [("number_of_users",
        [⟨"number_of_users", "Number of Users?", some "70", Confidence.high,
            "t1", "ev", 4⟩])]
      [] none none none [] (by decide)

/-! ## Manual overrides (C2) -/

theorem applyOverrides_mem_spec (ovs : List (String × String))
    (l : List ExtractedAnswer) :
    ∀ a ∈ applyOverrides ovs l, ∀ ov, dictGet? a.field_key ovs = some ov →
      pyStrip ov ≠ "" →
      a.answer = some (pyStrip ov) ∧ a.confidence = Confidence.high ∧
        a.source = "Manual entry" ∧ a.evidence = "" := by
  intro a ha ov hov hne
  unfold applyOverrides at ha
  rw [List.mem_map] at ha
  obtain ⟨b, _, hab⟩ := ha
  by_cases hcond : pyStrip ((dictGet? b.field_key ovs).getD "") ≠ ""
  · rw [if_pos hcond] at hab
    subst hab
    simp only at hov ⊢
    rw [hov, Option.getD_some]
    rw [hov, Option.getD_some] at hcond
    simp
  · rw [if_neg hcond] at hab
    subst hab
    rw [hov, Option.getD_some] at hcond
    exact absurd hne hcond

theorem applyOverrides_getElem?_unchanged (ovs : List (String × String))
    (l : List ExtractedAnswer) (i : Nat) (b : ExtractedAnswer)
    (hb : l[i]? = some b)
    (hskip : pyStrip ((dictGet? b.field_key ovs).getD "") = "") :
    (applyOverrides ovs l)[i]? = some b := by
  unfold applyOverrides
  rw [List.getElem?_map, hb]
  simp [hskip]

/-- C2 (amended): a manual override that is non-empty after stripping
surrounding whitespace forces the final answer to the stripped override
value with confidence high, source label "Manual entry" and no evidence,
over every other stage's result; an entry whose override strips to empty
is left unchanged by the override pass. -/
theorem C2_manual_override_wins
    (fields : List RFIField) (all : List (String × List ExtractedAnswer))
    (hub : List (String × Option String)) (res : Option Resolution)
    (cal : Option (List (String × Confidence)))
    (base : Option (List ExtractedAnswer)) (ovs : List (String × String)) :
    (∀ a ∈ pipelineMerge fields all hub res cal base ovs,
      ∀ ov, dictGet? a.field_key ovs = some ov → pyStrip ov ≠ "" →
        a.answer = some (pyStrip ov) ∧ a.confidence = Confidence.high ∧
          a.source = "Manual entry" ∧ a.evidence = "") ∧
    (∀ (l : List ExtractedAnswer) (i : Nat) (b : ExtractedAnswer),
      l[i]? = some b → pyStrip ((dictGet? b.field_key ovs).getD "") = "" →
      (applyOverrides ovs l)[i]? = some b) := by
  constructor
  · intro a ha
    unfold pipelineMerge at ha
    exact applyOverrides_mem_spec ovs _ a ha
  · exact fun l i b hb hskip => applyOverrides_getElem?_unchanged ovs l i b hb hskip

/-- Witness for C2 (amended) at a concrete input. -/
theorem C2_manual_override_wins_witness :
    (⟨"k", "q", some "x", Confidence.high, "Manual entry", "", 1⟩ : ExtractedAnswer) ∈
        pipelineMerge [⟨1, "k", "q", "h", none⟩] [] [] none none none [("k", " x ")] ∧
    dictGet? "k" [("k", " x ")] = some " x " ∧
    pyStrip " x " ≠ "" ∧
    ((⟨"k", "q", some "x", Confidence.high, "Manual entry", "", 1⟩ :
        ExtractedAnswer).answer = some (pyStrip " x ") ∧
      (⟨"k", "q", some "x", Confidence.high, "Manual entry", "", 1⟩ :
        ExtractedAnswer).confidence = Confidence.high ∧
      (⟨"k", "q", some "x", Confidence.high, "Manual entry", "", 1⟩ :
        ExtractedAnswer).source = "Manual entry" ∧
      (⟨"k", "q", some "x", Confidence.high, "Manual entry", "", 1⟩ :
        ExtractedAnswer).evidence = "") :=
  ⟨by decide, by decide, by decide,
    (C2_manual_override_wins [⟨1, "k", "q", "h", none⟩] [] [] none none none
        [("k", " x ")]).1 _ (by decide) " x " (by decide) (by decide)⟩

/-- C2 counterexample: with the non-empty manual override " 70 users " for
the only field, the final answer is the stripped value "70 users", not the
exact override value, and the source label is "Manual entry", not the
claimed "manual entry". -/
theorem C2_counterexample :
    pipelineMerge [⟨4, "number_of_users", "Number of Users?", "hint", none⟩]
        [] [] none none none [("number_of_users", " 70 users ")] =
      [⟨"number_of_users", "Number of Users?", some "70 users", Confidence.high,
          "Manual entry", "", 4⟩] ∧
    some "70 users" ≠ some " 70 users " ∧
    "Manual entry" ≠ "manual entry" := by
  refine ⟨by decide, by decide, by decide⟩

/-! ## Baseline reconciliation (C5) and calibration upgrades (C4, C10) -/

/-- C5: for every field during baseline reconciliation: a usable baseline
(non-missing confidence, non-empty answer) beats an unusable new answer;
with both usable the baseline wins unless the new answer is high against a
low baseline; an unusable baseline leaves the new answer in place. -/
theorem C5_baseline_reconciliation
    (bmap : List (String × ExtractedAnswer)) (l : List ExtractedAnswer)
    (i : Nat) (a : ExtractedAnswer) (ha : l[i]? = some a)
    (base : ExtractedAnswer) (hb : dictGet? a.field_key bmap = some base) :
    ((base.confidence ≠ Confidence.missing ∧ optTruthy base.answer = true) →
      ¬(a.confidence ≠ Confidence.missing ∧ optTruthy a.answer = true) →
      (reconcileBaseline bmap l)[i]? = some base) ∧
    ((base.confidence ≠ Confidence.missing ∧ optTruthy base.answer = true) →
      (a.confidence ≠ Confidence.missing ∧ optTruthy a.answer = true) →
      ¬(a.confidence = Confidence.high ∧ base.confidence = Confidence.low) →
      (reconcileBaseline bmap l)[i]? = some base) ∧
    ((base.confidence ≠ Confidence.missing ∧ optTruthy base.answer = true) →
      (a.confidence ≠ Confidence.missing ∧ optTruthy a.answer = true) →
      (a.confidence = Confidence.high ∧ base.confidence = Confidence.low) →
      (reconcileBaseline bmap l)[i]? = some a) ∧
    (¬(base.confidence ≠ Confidence.missing ∧ optTruthy base.answer = true) →
      (reconcileBaseline bmap l)[i]? = some a) := by
  have hkey : (reconcileBaseline bmap l)[i]? =
      some (let baseHas := base.confidence ≠ Confidence.missing ∧ optTruthy base.answer
            let newHas := a.confidence ≠ Confidence.missing ∧ optTruthy a.answer
            if baseHas ∧ ¬ newHas then base
            else if baseHas ∧ newHas then
              if ¬ (a.confidence = Confidence.high ∧ base.confidence = Confidence.low)
              then base
              else a
            else a) := by
    unfold reconcileBaseline
    rw [List.getElem?_map, ha]
    simp [hb]
  rw [hkey]
  simp only []
  refine ⟨?_, ?_, ?_, ?_⟩
  · intro h1 h2
    split_ifs <;> first | rfl | tauto
  · intro h1 h2 h3
    split_ifs <;> first | rfl | tauto
  · intro h1 h2 h3
    split_ifs <;> first | rfl | tauto
  · intro h1
    split_ifs <;> first | rfl | tauto

/-- Witness for C5 at a concrete input (baseline carry-forward case). -/
theorem C5_baseline_reconciliation_witness :
    ([(⟨"k", "q", none, Confidence.missing, "", "", 1⟩ : ExtractedAnswer)] :
        List ExtractedAnswer)[0]? =
      some ⟨"k", "q", none, Confidence.missing, "", "", 1⟩ ∧
    dictGet? "k"
        [("k", (⟨"k", "q", some "50 users", Confidence.medium, "s", "e", 1⟩ :
          ExtractedAnswer))] =
      some ⟨"k", "q", some "50 users", Confidence.medium, "s", "e", 1⟩ ∧
    (reconcileBaseline
        [("k", ⟨"k", "q", some "50 users", Confidence.medium, "s", "e", 1⟩)]
        [⟨"k", "q", none, Confidence.missing, "", "", 1⟩])[0]? =
      some ⟨"k", "q", some "50 users", Confidence.medium, "s", "e", 1⟩ :=
  ⟨by decide, by decide,
    (C5_baseline_reconciliation
        [("k", ⟨"k", "q", some "50 users", Confidence.medium, "s", "e", 1⟩)]
        [⟨"k", "q", none, Confidence.missing, "", "", 1⟩] 0
        ⟨"k", "q", none, Confidence.missing, "", "", 1⟩ (by decide)
        ⟨"k", "q", some "50 users", Confidence.medium, "s", "e", 1⟩
        (by decide)).1 (by decide) (by decide)⟩

/-- C4: evaluating calibrate_confidence on a run whose model response names
a field holding a missing-confidence answer: the low revision is applied
and the answer ends at confidence low, which ranks above missing in the
claimed ordering high > medium > low > missing — the engine upgrades
instead of ignoring the revision (downgrade_order.get defaults missing to
rank 0 at line 390). -/
theorem C4_missing_confidence_upgraded :
    calibrate_confidence
        [⟨"good", "q1", some "a", Confidence.high, "s", "ev", 1⟩,
         ⟨"gap", "q2", none, Confidence.missing, "", "", 2⟩]
        (some [("gap", Confidence.low)]) =
      [⟨"good", "q1", some "a", Confidence.high, "s", "ev", 1⟩,
       ⟨"gap", "q2", none, Confidence.low, "", "", 2⟩] := by decide

/-- C10: a full pipeline run in which the calibration response names a
field with no usable candidates: the final merged answer for that field
has confidence medium with a null answer, violating the claimed
missing-iff-empty invariant. -/
theorem C10_missing_iff_empty_violated :
    ∃ a ∈ pipelineMerge
        [⟨1, "f1", "q1", "h1", none⟩, ⟨2, "f2", "q2", "h2", none⟩]
        [("f1", [⟨"f1", "q1", some "ans", Confidence.high, "src", "ev", 1⟩])]
        [] none (some [("f2", Confidence.medium)]) none [],
      a.confidence ≠ Confidence.missing ∧ a.answer = none := by decide

/-! ## Structured-data precedence (C7) -/

theorem conflictsOf_lookup_some (fields : List RFIField)
    (hub : List (String × Option String))
    (all : List (String × List ExtractedAnswer))
    (p : String × List ExtractedAnswer) (hp : p ∈ conflictsOf hub all fields) :
    ∃ j, dictGet? p.1 (cisOf hub all 0 fields) = some j := by
  rw [conflictsOf_mem_iff] at hp
  obtain ⟨g, hg, hdg, hfk, _⟩ := hp
  obtain ⟨k, hk⟩ := List.mem_iff_getElem?.mp hg
  have hmem : (p.1, 0 + k) ∈ cisOf hub all 0 fields :=
    (cisOf_mem_iff hub all fields 0 p.1 (0 + k)).mpr ⟨k, g, hk, rfl, hdg, hfk⟩
  exact Option.isSome_iff_exists.mp (dictGet?_isSome_of_mem hmem)

/-- A field that is not deferred keeps its first-pass entry in the final
merged list, whatever the resolver outcome. -/
theorem merge_answers_getElem?_not_deferred (fields : List RFIField)
    (all : List (String × List ExtractedAnswer))
    (hub : List (String × Option String)) (res : Option Resolution)
    (i : Nat) (f : RFIField) (hi : fields[i]? = some f)
    (hnd : ¬ isDeferred hub all f) :
    (merge_answers fields all hub res)[i]? = some (mergeBase hub all f) := by
  rw [merge_answers_eq]
  rw [patchFold_getElem?_of_ne]
  · rw [List.getElem?_map, hi]
    rfl
  · intro p hp
    obtain ⟨j, hj⟩ := conflictsOf_lookup_some fields hub all p hp
    rw [hj, Option.getD_some]
    intro hji
    subst hji
    have hmem := dictGet?_mem hj
    rw [cisOf_mem_iff] at hmem
    obtain ⟨k, g, hk, hjk, hdg, _⟩ := hmem
    have : k = j := by omega
    subst this
    rw [hi] at hk
    injection hk with hk
    subst hk
    exact hnd hdg

/-- C7 (amended): for every field whose declared structured property is
supplied with a non-empty value in the structured data, merge emits that
value verbatim at the field's position with confidence high, source label
"HubSpot (structured)" and evidence "Direct CRM field", ignoring all
extraction candidates and resolver verdicts for that field. -/
theorem C7_structured_data_precedence (fields : List RFIField)
    (all : List (String × List ExtractedAnswer))
    (hub : List (String × Option String)) (res : Option Resolution)
    (i : Nat) (f : RFIField) (p v : String)
    (hi : fields[i]? = some f)
    (hp : f.hubspot_property = some p) (hpne : p ≠ "")
    (hlook : dictGet? p hub = some (some v)) (hv : v ≠ "") :
    (merge_answers fields all hub res)[i]? =
      some ⟨f.key, f.question, some v, Confidence.high, "HubSpot (structured)",
        "Direct CRM field", f.row⟩ := by
  have hub_ne : hub ≠ [] := by
    intro he
    rw [he] at hlook
    unfold dictGet? at hlook
    simp at hlook
  have hs : structuredValue hub f = some v := by
    unfold structuredValue
    rw [hp]
    simp [hub_ne, hpne, hlook, optTruthy, pyStr, hv]
  have hnd : ¬ isDeferred hub all f := by
    intro hdef
    rw [hdef.1] at hs
    exact Option.noConfusion hs
  rw [merge_answers_getElem?_not_deferred fields all hub res i f hi hnd]
  unfold mergeBase
  rw [hs]
  rfl

/-- Witness for C7 (amended) at a concrete input with a competing
extraction candidate. -/
theorem C7_structured_data_precedence_witness :
    ([(⟨4, "number_of_users", "Number of Users?", "hint",
        some "numberofemployees"⟩ : RFIField)] : List RFIField)[0]? =
      some ⟨4, "number_of_users", "Number of Users?", "hint",
        some "numberofemployees"⟩ ∧
    dictGet? "numberofemployees" [("numberofemployees", some "70")] =
      some (some "70") ∧
    (merge_answers
        [⟨4, "number_of_users", "Number of Users?", "hint", some "numberofemployees"⟩]
        [("number_of_users",
          [⟨"number_of_users", "Number of Users?", some "99", Confidence.high,
              "t1", "ev", 4⟩])]
        [("numberofemployees", some "70")] none)[0]? =
      some ⟨"number_of_users", "Number of Users?", some "70", Confidence.high,
        "HubSpot (structured)", "Direct CRM field", 4⟩ :=
  ⟨by decide, by decide,
    C7_structured_data_precedence
      [⟨4, "number_of_users", "Number of Users?", "hint", some "numberofemployees"⟩]
      [("number_of_users",
        [⟨"number_of_users", "Number of Users?", some "99", Confidence.high,
            "t1", "ev", 4⟩])]
      [("numberofemployees", some "70")] none 0
      ⟨4, "number_of_users", "Number of Users?", "hint", some "numberofemployees"⟩
      "numberofemployees" "70" (by decide) (by decide) (by decide) (by decide)
      (by decide)⟩

/-- C7 counterexample: the emitted source label is "HubSpot (structured)"
and the evidence "Direct CRM field", not the claimed literal labels
"structured data" and "direct field". -/
theorem C7_counterexample :
    merge_answers
        [⟨4, "number_of_users", "Number of Users?", "hint", some "numberofemployees"⟩]
        [] [("numberofemployees", some "70")] none =
      [⟨"number_of_users", "Number of Users?", some "70", Confidence.high,
          "HubSpot (structured)", "Direct CRM field", 4⟩] ∧
    "HubSpot (structured)" ≠ "structured data" ∧
    "Direct CRM field" ≠ "direct field" :=
  ⟨by decide, by decide, by decide⟩

/-! ## Conflict deferral (C6) -/

theorem highsOf_perm (all : List (String × List ExtractedAnswer)) (f : RFIField) :
    (highsOf all f).Perm (highAnswerCandidates all f) := by
  unfold highsOf sortedRealOf highAnswerCandidates
  refine ((sortByPriority_perm _).filter _).trans ?_
  unfold realAnswers
  rw [List.filter_filter]
  have heq : ∀ a ∈ candidatesOf all f,
      ((decide (a.confidence = Confidence.high)) &&
        decide (a.confidence ≠ Confidence.missing ∧ optTruthy a.answer = true)) =
      decide (a.confidence = Confidence.high ∧ optTruthy a.answer = true) := by
    intro a _
    cases a.confidence <;> simp
  rw [List.filter_congr heq]

theorem highsOf_truthy (all : List (String × List ExtractedAnswer)) (f : RFIField) :
    ∀ a ∈ highsOf all f, optTruthy a.answer = true := by
  intro a ha
  have := (highsOf_perm all f).mem_iff.mp ha
  unfold highAnswerCandidates at this
  exact (of_decide_eq_true (List.mem_filter.mp this).2).2

theorem uniqueAnswers_highsOf (all : List (String × List ExtractedAnswer))
    (f : RFIField) :
    uniqueAnswers (highsOf all f) =
      dedupFirst ((highsOf all f).map (fun a => a.answer)) := by
  unfold uniqueAnswers
  rw [List.filter_eq_self.mpr (highsOf_truthy all f)]

theorem isDeferred_iff_claim (hub : List (String × Option String))
    (all : List (String × List ExtractedAnswer)) (f : RFIField)
    (hns : structuredValue hub f = none) :
    isDeferred hub all f ↔
      (2 ≤ (highAnswerCandidates all f).length ∧
        ∃ x ∈ highAnswerCandidates all f, ∃ y ∈ highAnswerCandidates all f,
          x.answer ≠ y.answer) := by
  constructor
  · rintro ⟨_, _, hlen, huniq⟩
    constructor
    · rw [(highsOf_perm all f).length_eq] at hlen
      omega
    · rw [uniqueAnswers_highsOf] at huniq
      obtain ⟨xa, hxa, ya, hya, hne⟩ := exists_ne_of_one_lt_dedupFirst huniq
      obtain ⟨x, hx, hxe⟩ := List.mem_map.mp hxa
      obtain ⟨y, hy, hye⟩ := List.mem_map.mp hya
      exact ⟨x, (highsOf_perm all f).mem_iff.mp hx,
        y, (highsOf_perm all f).mem_iff.mp hy, by rw [hxe, hye]; exact hne⟩
  · rintro ⟨hlen, x, hx, y, hy, hne⟩
    have hxr : x ∈ realAnswers (candidatesOf all f) := by
      unfold highAnswerCandidates at hx
      obtain ⟨hxc, hxp⟩ := List.mem_filter.mp hx
      have hxp2 := of_decide_eq_true hxp
      unfold realAnswers
      refine List.mem_filter.mpr ⟨hxc, ?_⟩
      have : x.confidence ≠ Confidence.missing := by rw [hxp2.1]; intro h; cases h
      simp [this, hxp2.2]
    refine ⟨hns, ?_, ?_, ?_⟩
    · intro he
      rw [he] at hxr
      exact absurd hxr (List.not_mem_nil x)
    · rw [(highsOf_perm all f).length_eq]
      omega
    · rw [uniqueAnswers_highsOf]
      exact one_lt_dedupFirst_length x.answer y.answer
        (List.mem_map_of_mem _ ((highsOf_perm all f).mem_iff.mpr hx))
        (List.mem_map_of_mem _ ((highsOf_perm all f).mem_iff.mpr hy)) hne

/-- C6: a field not decided by structured data is deferred into the
conflict batch exactly when it has two or more high-confidence candidates
with non-empty answers whose answer texts are not all identical; when this
fails (in particular for duplicated high-confidence answer texts) the
field's first-pass winner is emitted directly, whatever the resolver
outcome. -/
theorem C6_deferred_iff_distinct_high_answers (fields : List RFIField)
    (all : List (String × List ExtractedAnswer))
    (hub : List (String × Option String))
    (hnodup : (fields.map (fun g => g.key)).Nodup)
    (i : Nat) (f : RFIField) (hi : fields[i]? = some f)
    (hns : structuredValue hub f = none) :
    ((∃ hc, (f.key, hc) ∈ (mergeFirstPass fields hub all).conflicts) ↔
      (2 ≤ (highAnswerCandidates all f).length ∧
        ∃ x ∈ highAnswerCandidates all f, ∃ y ∈ highAnswerCandidates all f,
          x.answer ≠ y.answer)) ∧
    (¬ (2 ≤ (highAnswerCandidates all f).length ∧
        ∃ x ∈ highAnswerCandidates all f, ∃ y ∈ highAnswerCandidates all f,
          x.answer ≠ y.answer) →
      ∀ res, (merge_answers fields all hub res)[i]? =
        some (mergeBase hub all f)) := by
  have hfmem : f ∈ fields := List.mem_iff_getElem?.mpr ⟨i, hi⟩
  constructor
  · rw [mergeFirstPass_conflicts]
    constructor
    · rintro ⟨hc, hmem⟩
      rw [conflictsOf_mem_iff] at hmem
      obtain ⟨g, hg, hdg, hfk, _⟩ := hmem
      have hgf : g = f :=
        List.inj_on_of_nodup_map hnodup hg hfmem hfk.symm
      subst hgf
      exact (isDeferred_iff_claim hub all g hns).mp hdg
    · intro hcond
      refine ⟨highsOf all f, ?_⟩
      rw [conflictsOf_mem_iff]
      exact ⟨f, hfmem, (isDeferred_iff_claim hub all f hns).mpr hcond, rfl, rfl⟩
  · intro hcond res
    refine merge_answers_getElem?_not_deferred fields all hub res i f hi ?_
    intro hdef
    exact hcond ((isDeferred_iff_claim hub all f hns).mp hdef)

/-- Witness for C6 at a concrete input: two high-confidence candidates
with distinct answers get deferred. -/
theorem C6_deferred_iff_distinct_high_answers_witness :
    ∃ hc, ("k", hc) ∈ (mergeFirstPass [⟨1, "k", "q", "h", none⟩] []
      [("k",
        [⟨"k", "q", some "A", Confidence.high, "s1", "e1", 1⟩,
         ⟨"k", "q", some "B", Confidence.high, "s2", "e2", 1⟩])]).conflicts :=
  (C6_deferred_iff_distinct_high_answers [⟨1, "k", "q", "h", none⟩]
      [("k",
        [⟨"k", "q", some "A", Confidence.high, "s1", "e1", 1⟩,
         ⟨"k", "q", some "B", Confidence.high, "s2", "e2", 1⟩])]
      [] (by decide) 0 ⟨1, "k", "q", "h", none⟩ (by decide) (by decide)).1.mpr
    ⟨by decide,
      ⟨"k", "q", some "A", Confidence.high, "s1", "e1", 1⟩, by decide,
      ⟨"k", "q", some "B", Confidence.high, "s2", "e2", 1⟩, by decide, by decide⟩

/-! ## Chunk size bound (C8) -/

/-- C8 (amended): every chunk fits in max_chars, except a chunk consisting
of a single packing unit — one paragraph in paragraph mode, or one
dialogue pair (up to two adjacent speaker turns, grouped to keep Q&A
context) in transcript mode — whose own length exceeds the limit. -/
theorem C8_chunk_size_bounded (text : String) (maxChars : Nat) :
    ∀ c ∈ chunk_text text maxChars,
      c.length ≤ maxChars ∨
        (isTranscript text = true ∧ c ∈ pairTurns (turnsOf text)) ∨
        (isTranscript text = false ∧ c ∈ pySplitOn text "\n\n") := by
  intro c hc
  unfold chunk_text at hc
  split at hc
  · rw [List.mem_singleton] at hc
    subst hc
    left
    assumption
  · split at hc
    · rename_i ht
      rcases packUnits_bound maxChars (pairTurns (turnsOf text)) c hc with h | h
      · exact Or.inl h
      · exact Or.inr (Or.inl ⟨ht, h⟩)
    · rename_i ht
      rcases packUnits_bound maxChars (pySplitOn text "\n\n") c hc with h | h
      · exact Or.inl h
      · exact Or.inr (Or.inr ⟨Bool.not_eq_true _ ▸ ht, h⟩)

/-- Witness for C8 (amended) at a concrete paragraph-mode input. -/
theorem C8_chunk_size_bounded_witness :
    "bbbb" ∈ chunk_text "aaaa\n\nbbbb\n\ncccc" 9 ∧
      ("bbbb".length ≤ 9 ∨
        (isTranscript "aaaa\n\nbbbb\n\ncccc" = true ∧
          "bbbb" ∈ pairTurns (turnsOf "aaaa\n\nbbbb\n\ncccc")) ∨
        (isTranscript "aaaa\n\nbbbb\n\ncccc" = false ∧
          "bbbb" ∈ pySplitOn "aaaa\n\nbbbb\n\ncccc" "\n\n")) :=
  ⟨by decide, C8_chunk_size_bounded "aaaa\n\nbbbb\n\ncccc" 9 "bbbb" (by decide)⟩

/-- C8 counterexample: in transcript mode a chunk can be a dialogue pair of
two speaker turns whose combined length exceeds max_chars even though no
single atomic unit (speaker turn, or paragraph) does: the claim's
exception clause does not cover it. -/
theorem C8_counterexample :
    ∃ c ∈ chunk_text "**A**\nxxx\n**B**\nyyy" 10,
      10 < c.length ∧ c ∉ turnsOf "**A**\nxxx\n**B**\nyyy" ∧
        c ∉ pySplitOn "**A**\nxxx\n**B**\nyyy" "\n\n" ∧
        (∀ t ∈ turnsOf "**A**\nxxx\n**B**\nyyy", t.length ≤ 10) := by decide

/-! ## Permutation sensitivity of merge (C9) -/

/-- C9 counterexample: two medium-confidence candidates with different
answers; swapping their arrival order changes the field's Merged Answer,
because the stable sort keeps arrival order inside a confidence tier and
merge takes the first element. -/
theorem C9_counterexample :
    ([⟨"k", "q", some "A", Confidence.medium, "s1", "e1", 1⟩,
      ⟨"k", "q", some "B", Confidence.medium, "s2", "e2", 1⟩] :
        List ExtractedAnswer).Perm
      [⟨"k", "q", some "B", Confidence.medium, "s2", "e2", 1⟩,
       ⟨"k", "q", some "A", Confidence.medium, "s1", "e1", 1⟩] ∧
    merge_answers [⟨1, "k", "q", "h", none⟩]
        [("k",
          [⟨"k", "q", some "A", Confidence.medium, "s1", "e1", 1⟩,
           ⟨"k", "q", some "B", Confidence.medium, "s2", "e2", 1⟩])] [] none ≠
      merge_answers [⟨1, "k", "q", "h", none⟩]
        [("k",
          [⟨"k", "q", some "B", Confidence.medium, "s2", "e2", 1⟩,
           ⟨"k", "q", some "A", Confidence.medium, "s1", "e1", 1⟩])] [] none :=
  ⟨by decide, by decide⟩

theorem sortByPriority_headI_unique_top (l : List ExtractedAnswer)
    (m : ExtractedAnswer) (hm : m ∈ l)
    (htop : ∀ b ∈ l, b ≠ m →
      priorityRank m.confidence < priorityRank b.confidence) :
    (sortByPriority l).headI = m := by
  have hne : l ≠ [] := fun he => by
    rw [he] at hm
    exact absurd hm (List.not_mem_nil m)
  obtain ⟨hmem, hmin⟩ := sortByPriority_head_min hne
  by_contra hne2
  have h1 := htop _ hmem hne2
  have h2 := hmin m hm
  omega

theorem highsOf_all_eq_unique_top (all : List (String × List ExtractedAnswer))
    (f : RFIField) (m : ExtractedAnswer)
    (htop : ∀ b ∈ realAnswers (candidatesOf all f), b ≠ m →
      priorityRank m.confidence < priorityRank b.confidence) :
    ∀ a ∈ highsOf all f, a = m := by
  intro a ha
  have har : a ∈ realAnswers (candidatesOf all f) := by
    unfold highsOf sortedRealOf at ha
    exact (sortByPriority_perm _).mem_iff.mp (List.mem_filter.mp ha).1
  by_contra hne
  have h1 := htop a har hne
  have h2 : a.confidence = Confidence.high := by
    unfold highsOf at ha
    exact of_decide_eq_true (List.mem_filter.mp ha).2
  rw [h2] at h1
  simp [priorityRank] at h1

theorem not_isDeferred_unique_top (hub : List (String × Option String))
    (all : List (String × List ExtractedAnswer)) (f : RFIField)
    (m : ExtractedAnswer)
    (htop : ∀ b ∈ realAnswers (candidatesOf all f), b ≠ m →
      priorityRank m.confidence < priorityRank b.confidence) :
    ¬ isDeferred hub all f := by
  rintro ⟨_, _, _, huniq⟩
  rw [uniqueAnswers_highsOf] at huniq
  have hall : ∀ x ∈ (highsOf all f).map (fun a => a.answer),
      ∀ y ∈ (highsOf all f).map (fun a => a.answer), x = y := by
    intro x hx y hy
    obtain ⟨a, ha, hxe⟩ := List.mem_map.mp hx
    obtain ⟨b, hb, hye⟩ := List.mem_map.mp hy
    rw [← hxe, ← hye, highsOf_all_eq_unique_top all f m htop a ha,
      highsOf_all_eq_unique_top all f m htop b hb]
  have := dedupFirst_length_le_one hall
  omega

/-- C9 (amended): merge is invariant under permutation of a field's
candidate list whenever a single candidate strictly dominates the field's
usable candidates in confidence rank (a unique top-ranked candidate); in
that case the field is never deferred and its final Merged Answer is the
same for both orderings.  (The unrestricted claim fails: see the
counterexample, where a tie at the top confidence tier makes the winner
depend on arrival order.) -/
theorem C9_merge_permutation_invariant_unique_top
    (hub : List (String × Option String))
    (all1 all2 : List (String × List ExtractedAnswer)) (f : RFIField)
    (hperm : (candidatesOf all1 f).Perm (candidatesOf all2 f))
    (m : ExtractedAnswer) (hm : m ∈ realAnswers (candidatesOf all1 f))
    (htop : ∀ b ∈ realAnswers (candidatesOf all1 f), b ≠ m →
      priorityRank m.confidence < priorityRank b.confidence) :
    mergeBase hub all1 f = mergeBase hub all2 f ∧
    ¬ isDeferred hub all1 f ∧ ¬ isDeferred hub all2 f ∧
    (∀ (fields : List RFIField) (res : Option Resolution) (i : Nat),
      fields[i]? = some f →
      (merge_answers fields all1 hub res)[i]? =
        (merge_answers fields all2 hub res)[i]?) := by
  have hpermr : (realAnswers (candidatesOf all1 f)).Perm
      (realAnswers (candidatesOf all2 f)) := hperm.filter _
  have hm2 : m ∈ realAnswers (candidatesOf all2 f) := hpermr.mem_iff.mp hm
  have htop2 : ∀ b ∈ realAnswers (candidatesOf all2 f), b ≠ m →
      priorityRank m.confidence < priorityRank b.confidence :=
    fun b hb => htop b (hpermr.mem_iff.mpr hb)
  have hne1 : realAnswers (candidatesOf all1 f) ≠ [] := fun he => by
    rw [he] at hm
    exact absurd hm (List.not_mem_nil m)
  have hne2 : realAnswers (candidatesOf all2 f) ≠ [] := fun he => by
    rw [he] at hm2
    exact absurd hm2 (List.not_mem_nil m)
  have hbase : mergeBase hub all1 f = mergeBase hub all2 f := by
    unfold mergeBase
    cases structuredValue hub f with
    | some v => rfl
    | none =>
        rw [if_neg hne1, if_neg hne2]
        unfold sortedRealOf
        rw [sortByPriority_headI_unique_top _ m hm htop,
          sortByPriority_headI_unique_top _ m hm2 htop2]
  refine ⟨hbase, not_isDeferred_unique_top hub all1 f m htop,
    not_isDeferred_unique_top hub all2 f m htop2, ?_⟩
  intro fields res i hi
  rw [merge_answers_getElem?_not_deferred fields all1 hub res i f hi
      (not_isDeferred_unique_top hub all1 f m htop),
    merge_answers_getElem?_not_deferred fields all2 hub res i f hi
      (not_isDeferred_unique_top hub all2 f m htop2),
    hbase]

/-- Witness for C9 (amended) at a concrete input: a unique high-confidence
winner over a low-confidence candidate survives the swap. -/
theorem C9_merge_permutation_invariant_unique_top_witness :
    (merge_answers [⟨1, "k", "q", "h", none⟩]
        [("k",
          [⟨"k", "q", some "A", Confidence.high, "s1", "e1", 1⟩,
           ⟨"k", "q", some "B", Confidence.low, "s2", "e2", 1⟩])] [] none)[0]? =
      (merge_answers [⟨1, "k", "q", "h", none⟩]
        [("k",
          [⟨"k", "q", some "B", Confidence.low, "s2", "e2", 1⟩,
           ⟨"k", "q", some "A", Confidence.high, "s1", "e1", 1⟩])] [] none)[0]? :=
  (C9_merge_permutation_invariant_unique_top []
      [("k",
        [⟨"k", "q", some "A", Confidence.high, "s1", "e1", 1⟩,
         ⟨"k", "q", some "B", Confidence.low, "s2", "e2", 1⟩])]
      [("k",
        [⟨"k", "q", some "B", Confidence.low, "s2", "e2", 1⟩,
         ⟨"k", "q", some "A", Confidence.high, "s1", "e1", 1⟩])]
      ⟨1, "k", "q", "h", none⟩ (by decide)
      ⟨"k", "q", some "A", Confidence.high, "s1", "e1", 1⟩ (by decide)
      (by decide)).2.2.2 [⟨1, "k", "q", "h", none⟩] none 0 (by decide)

/-! ## Deferred-field resolution (C3) -/

theorem conflictsOf_keys_sublist (hub : List (String × Option String))
    (all : List (String × List ExtractedAnswer)) :
    ∀ fields : List RFIField,
      ((conflictsOf hub all fields).map (fun p => p.1)).Sublist
        (fields.map (fun g => g.key)) := by
  intro fields
  induction fields with
  | nil => simp [conflictsOf]
  | cons f fs ih =>
      rw [conflictsOf]
      by_cases hd : isDeferred hub all f
      · rw [if_pos hd]
        simpa using List.Sublist.cons₂ f.key ih
      · rw [if_neg hd]
        simpa using List.Sublist.cons f.key ih

theorem key_index_unique (fields : List RFIField)
    (hnodup : (fields.map (fun g => g.key)).Nodup)
    (i j : Nat) (f g : RFIField) (hi : fields[i]? = some f)
    (hj : fields[j]? = some g) (hkey : f.key = g.key) : i = j := by
  obtain ⟨hi1, hi2⟩ := List.getElem?_eq_some_iff.mp hi
  obtain ⟨hj1, hj2⟩ := List.getElem?_eq_some_iff.mp hj
  have hmi : i < (fields.map (fun g => g.key)).length := by
    rw [List.length_map]; exact hi1
  have hmj : j < (fields.map (fun g => g.key)).length := by
    rw [List.length_map]; exact hj1
  have h1 : (fields.map (fun g => g.key))[i]? = some f.key := by
    rw [List.getElem?_map, hi]; rfl
  have h2 : (fields.map (fun g => g.key))[j]? = some g.key := by
    rw [List.getElem?_map, hj]; rfl
  obtain ⟨_, e1⟩ := List.getElem?_eq_some_iff.mp h1
  obtain ⟨_, e2⟩ := List.getElem?_eq_some_iff.mp h2
  exact (List.Nodup.getElem_inj_iff hnodup).mp (by rw [e1, e2, hkey])

theorem fallback_verdict_false
    (conflicts : List (String × List ExtractedAnswer)) (fk : String) :
    (dictGet? fk ((fallbackResolution conflicts).verdicts)).getD false = false := by
  unfold fallbackResolution
  cases hlook :
      dictGet? fk (conflicts.map (fun p => (p.1, false))) with
  | none => rfl
  | some b =>
      have hmem := dictGet?_mem hlook
      rw [List.mem_map] at hmem
      obtain ⟨p, _, hp⟩ := hmem
      have hb : b = false := by
        have h2 := congrArg Prod.snd hp
        simpa using h2.symm
      rw [hb]
      rfl

/-- The final merged entry of a deferred field is its patch entry, built
from the resolver outcome and the field's high-confidence candidates. -/
theorem merge_answers_getElem?_deferred (fields : List RFIField)
    (all : List (String × List ExtractedAnswer))
    (hub : List (String × Option String)) (res : Option Resolution)
    (hnodup : (fields.map (fun g => g.key)).Nodup)
    (i : Nat) (f : RFIField) (hi : fields[i]? = some f)
    (hdef : isDeferred hub all f) :
    (merge_answers fields all hub res)[i]? =
      some (patchEntry (resolvedResolution res (conflictsOf hub all fields))
        f.key (highsOf all f)) := by
  rw [merge_answers_eq]
  have hfmem : f ∈ fields := List.mem_iff_getElem?.mpr ⟨i, hi⟩
  have hcmem : (f.key, highsOf all f) ∈ conflictsOf hub all fields :=
    (conflictsOf_mem_iff hub all fields f.key (highsOf all f)).mpr
      ⟨f, hfmem, hdef, rfl, rfl⟩
  have hilen : i < fields.length := (List.getElem?_eq_some_iff.mp hi).1
  have hidx : (dictGet? f.key (cisOf hub all 0 fields)).getD 0 = i := by
    have hcis : (f.key, 0 + i) ∈ cisOf hub all 0 fields :=
      (cisOf_mem_iff hub all fields 0 f.key (0 + i)).mpr ⟨i, f, hi, rfl, hdef, rfl⟩
    cases hlook : dictGet? f.key (cisOf hub all 0 fields) with
    | none =>
        have := dictGet?_isSome_of_mem hcis
        rw [hlook] at this
        simp at this
    | some j =>
        have hjmem := dictGet?_mem hlook
        rw [cisOf_mem_iff] at hjmem
        obtain ⟨k, g, hk, hjk, _, hfk⟩ := hjmem
        have hkj : k = j := by omega
        subst hkj
        have : i = k := key_index_unique fields hnodup i k f g hi hk hfk
        rw [Option.getD_some]
        omega
  have hknodup : ((conflictsOf hub all fields).map (fun p => p.1)).Nodup :=
    hnodup.sublist (conflictsOf_keys_sublist hub all fields)
  obtain ⟨pre, post, hsplit⟩ := List.append_of_mem hcmem
  have hpostkey : ∀ p ∈ post, p.1 ≠ f.key := by
    intro p hp heq
    rw [hsplit, List.map_append, List.map_cons] at hknodup
    have := (List.Nodup.of_append_right hknodup)
    rw [List.nodup_cons] at this
    exact this.1 (heq ▸ List.mem_map_of_mem (fun p => p.1) hp)
  have hpost : ∀ p ∈ post, (dictGet? p.1 (cisOf hub all 0 fields)).getD 0 ≠ i := by
    intro p hp
    have hpc : p ∈ conflictsOf hub all fields := by
      rw [hsplit]
      exact List.mem_append.mpr (Or.inr (List.mem_cons_of_mem _ hp))
    obtain ⟨j, hj⟩ := conflictsOf_lookup_some fields hub all p hpc
    rw [hj, Option.getD_some]
    intro hij
    subst hij
    have hjmem := dictGet?_mem hj
    rw [cisOf_mem_iff] at hjmem
    obtain ⟨k, g, hk, hjk, _, hfk⟩ := hjmem
    have hkj : k = j := by omega
    subst hkj
    rw [hi] at hk
    injection hk with hk
    subst hk
    exact hpostkey p hp hfk
  have hlen2 : i < (fields.map (mergeBase hub all)).length := by
    rw [List.length_map]; exact hilen
  rw [hsplit]
  exact patchFold_getElem?_target _ _ pre post f.key (highsOf all f) _ i hidx hlen2 hpost

/-- C3: for every deferred field, on a compatible verdict the merged
answer is high confidence with the synthesized answer (or the longest
candidate answer when none is supplied); on a conflicting verdict, or when
the resolver outcome is unavailable (call failure, unparseable response or
no extractor), the answer is the literal CONFLICTING listing at medium
confidence; in every case the source is the comma-joined set of involved
source labels and the evidence the " / "-joined non-empty evidences. -/
theorem C3_conflict_verdicts (fields : List RFIField)
    (all : List (String × List ExtractedAnswer))
    (hub : List (String × Option String)) (res : Option Resolution)
    (hnodup : (fields.map (fun g => g.key)).Nodup)
    (i : Nat) (f : RFIField) (hi : fields[i]? = some f)
    (hdef : isDeferred hub all f) :
    ∃ a, (merge_answers fields all hub res)[i]? = some a ∧
      a.source = pyJoin ", " (dedupFirst ((highsOf all f).map (fun c => c.source))) ∧
      a.evidence = pyJoin " / "
        (((highsOf all f).filter (fun c => c.evidence ≠ "")).map
          (fun c => c.evidence)) ∧
      (∀ r, res = some r → (dictGet? f.key r.verdicts).getD false = true →
        a.confidence = Confidence.high ∧
          a.answer = compatibleAnswer r f.key (highsOf all f)) ∧
      (∀ r, res = some r → (dictGet? f.key r.verdicts).getD false = false →
        a.confidence = Confidence.medium ∧
          a.answer = some ("CONFLICTING: " ++ pyJoin " | "
            ((highsOf all f).map
              (fun c => "[" ++ c.source ++ "]: " ++ pyStr c.answer)))) ∧
      (res = none →
        a.confidence = Confidence.medium ∧
          a.answer = some ("CONFLICTING: " ++ pyJoin " | "
            ((highsOf all f).map
              (fun c => "[" ++ c.source ++ "]: " ++ pyStr c.answer)))) ∧
      (∀ r, dictGet? f.key r.bestAnswers = none →
        compatibleAnswer r f.key (highsOf all f) =
          (maxByAnswerLen (highsOf all f)).answer) := by
  refine ⟨patchEntry (resolvedResolution res (conflictsOf hub all fields))
    f.key (highsOf all f),
    merge_answers_getElem?_deferred fields all hub res hnodup i f hi hdef,
    ?_, ?_, ?_, ?_, ?_, ?_⟩
  · unfold patchEntry combinedSources
    split <;> rfl
  · unfold patchEntry combinedEvidence
    split <;> rfl
  · intro r hres hverdict
    subst hres
    unfold patchEntry
    rw [show resolvedResolution (some r) (conflictsOf hub all fields) = r from rfl,
      if_pos hverdict]
    exact ⟨rfl, rfl⟩
  · intro r hres hverdict
    subst hres
    unfold patchEntry
    rw [show resolvedResolution (some r) (conflictsOf hub all fields) = r from rfl,
      if_neg (by rw [hverdict]; simp)]
    exact ⟨rfl, rfl⟩
  · intro hres
    subst hres
    unfold patchEntry
    rw [if_neg (by
      rw [show (resolvedResolution none (conflictsOf hub all fields)) =
        fallbackResolution (conflictsOf hub all fields) from rfl,
        fallback_verdict_false]
      simp)]
    exact ⟨rfl, rfl⟩
  · intro r hbest
    unfold compatibleAnswer
    rw [hbest]

/-- Witness for C3 at a concrete input: resolver outcome unavailable, the
two deferred high-confidence candidates flagged CONFLICTING. -/
theorem C3_conflict_verdicts_witness :
    ∃ a, (merge_answers [⟨1, "k", "q", "h", none⟩]
        [("k",
          [⟨"k", "q", some "A", Confidence.high, "s1", "e1", 1⟩,
           ⟨"k", "q", some "B", Confidence.high, "s2", "e2", 1⟩])] [] none)[0]? =
        some a ∧
      a.source = pyJoin ", " (dedupFirst
        ((highsOf [("k",
          [⟨"k", "q", some "A", Confidence.high, "s1", "e1", 1⟩,
           ⟨"k", "q", some "B", Confidence.high, "s2", "e2", 1⟩])]
          ⟨1, "k", "q", "h", none⟩).map (fun c => c.source))) ∧
      a.evidence = pyJoin " / "
        (((highsOf [("k",
          [⟨"k", "q", some "A", Confidence.high, "s1", "e1", 1⟩,
           ⟨"k", "q", some "B", Confidence.high, "s2", "e2", 1⟩])]
          ⟨1, "k", "q", "h", none⟩).filter (fun c => c.evidence ≠ "")).map
          (fun c => c.evidence)) ∧
      (∀ r, (none : Option Resolution) = some r →
        (dictGet? "k" r.verdicts).getD false = true →
        a.confidence = Confidence.high ∧
          a.answer = compatibleAnswer r "k"
            (highsOf [("k",
              [⟨"k", "q", some "A", Confidence.high, "s1", "e1", 1⟩,
               ⟨"k", "q", some "B", Confidence.high, "s2", "e2", 1⟩])]
              ⟨1, "k", "q", "h", none⟩)) ∧
      (∀ r, (none : Option Resolution) = some r →
        (dictGet? "k" r.verdicts).getD false = false →
        a.confidence = Confidence.medium ∧
          a.answer = some ("CONFLICTING: " ++ pyJoin " | "
            ((highsOf [("k",
              [⟨"k", "q", some "A", Confidence.high, "s1", "e1", 1⟩,
               ⟨"k", "q", some "B", Confidence.high, "s2", "e2", 1⟩])]
              ⟨1, "k", "q", "h", none⟩).map
              (fun c => "[" ++ c.source ++ "]: " ++ pyStr c.answer)))) ∧
      ((none : Option Resolution) = none →
        a.confidence = Confidence.medium ∧
          a.answer = some ("CONFLICTING: " ++ pyJoin " | "
            ((highsOf [("k",
              [⟨"k", "q", some "A", Confidence.high, "s1", "e1", 1⟩,
               ⟨"k", "q", some "B", Confidence.high, "s2", "e2", 1⟩])]
              ⟨1, "k", "q", "h", none⟩).map
              (fun c => "[" ++ c.source ++ "]: " ++ pyStr c.answer)))) ∧
      (∀ r, dictGet? "k" r.bestAnswers = none →
        compatibleAnswer r "k"
            (highsOf [("k",
              [⟨"k", "q", some "A", Confidence.high, "s1", "e1", 1⟩,
               ⟨"k", "q", some "B", Confidence.high, "s2", "e2", 1⟩])]
              ⟨1, "k", "q", "h", none⟩) =
          (maxByAnswerLen
            (highsOf [("k",
              [⟨"k", "q", some "A", Confidence.high, "s1", "e1", 1⟩,
               ⟨"k", "q", some "B", Confidence.high, "s2", "e2", 1⟩])]
              ⟨1, "k", "q", "h", none⟩)).answer) :=
  C3_conflict_verdicts [⟨1, "k", "q", "h", none⟩]
    [("k",
      [⟨"k", "q", some "A", Confidence.high, "s1", "e1", 1⟩,
       ⟨"k", "q", some "B", Confidence.high, "s2", "e2", 1⟩])]
    [] none (by decide) 0 ⟨1, "k", "q", "h", none⟩ (by decide) (by decide)

end OFF
